import Mathlib

/-!
Shallow embedding of the PCI-utility sources of this repository: the
config-space cache of the adna tool (`config_fetch`), the passive topology
builder of lspci.c (`grow_tree` / `insert_dev`), and the active bus-mapping
prober and validator of lspci.c (`map_bridge` / `do_map_bus` /
`do_map_bridges` / `map_bridges`), together with theorems settling the
frozen claims about them.
-/

/-! ### Config-space cache of the adna tool (`config_fetch` in the adna source) -/

namespace Adna

/-- State of one device's config-space cache: `config_bufsize` and the
`present` byte mask (`d->config_bufsize`, `d->present`).  The cached byte
values themselves are irrelevant to the cache-management claims and are
omitted. -/
structure CacheState where
  bufsize : Nat
  present : Nat → Bool

/-- First trimming loop of `config_fetch`:
`while (pos < d->config_bufsize && len && d->present[pos]) pos++, len--;`.
Returns the final `(pos, len)`. -/
def trimLead (s : CacheState) : Nat → Nat → Nat × Nat
  | pos, 0 => (pos, 0)
  | pos, l + 1 =>
    if pos < s.bufsize ∧ s.present pos then trimLead s (pos + 1) l else (pos, l + 1)

/-- Second trimming loop of `config_fetch`:
`while (pos+len <= d->config_bufsize && len && d->present[pos+len-1]) len--;`.
Returns the final `len`. -/
def trimTrail (s : CacheState) (pos : Nat) : Nat → Nat
  | 0 => 0
  | l + 1 =>
    if pos + (l + 1) ≤ s.bufsize ∧ s.present (pos + l) then trimTrail s pos l else l + 1

/-- Buffer-growth loop of `config_fetch`:
`while (end > d->config_bufsize) d->config_bufsize *= 2;`.
(The C loop terminates only for a positive buffer size, which is an
invariant of the program: the buffer starts at 256 bytes.) -/
def growSize (bufsize stop : Nat) : Nat :=
  if h : 0 < bufsize ∧ bufsize < stop then growSize (bufsize * 2) stop else bufsize
termination_by stop - bufsize
decreasing_by
  omega

/-- Result of one `config_fetch` call: the new cache state, the range
`(pos, len)` requested from the hardware collaborator (`pci_read_block`),
if any, and the success flag returned to the caller. -/
structure FetchResult where
  state : CacheState
  req : Option (Nat × Nat)
  ok : Bool

/-- Start of the hardware-requested range of a fetch (0 when no request). -/
def FetchResult.reqStart (r : FetchResult) : Nat := (r.req.getD (0, 0)).1

/-- Length of the hardware-requested range of a fetch (0 when no request). -/
def FetchResult.reqLen (r : FetchResult) : Nat := (r.req.getD (0, 0)).2

/-- `config_fetch` of the adna source, for one device cache.  `hw pos len`
models the success of `pci_read_block(d->dev, pos, d->config + pos, len)`.
The code trims the already-present prefix and suffix of the requested
range, returns success immediately if nothing remains, grows the buffer by
doubling when the range end exceeds it (zero-filling the new part of the
presence mask), issues one block read for the remaining range and, on
success, marks that range present. -/
def config_fetch (hw : Nat → Nat → Bool) (s : CacheState) (pos0 len0 : Nat) :
    FetchResult :=
  let stop := pos0 + len0
  let pl := trimLead s pos0 len0
  let pos := pl.1
  let len := trimTrail s pos pl.2
  if len = 0 then ⟨s, none, true⟩
  else
    let s1 : CacheState :=
      if s.bufsize < stop then
        { bufsize := growSize s.bufsize stop,
          present := fun i => if s.bufsize ≤ i then false else s.present i }
      else s
    if hw pos len then
      ⟨{ s1 with present := fun i => if pos ≤ i ∧ i < pos + len then true else s1.present i },
        some (pos, len), true⟩
    else ⟨s1, some (pos, len), false⟩

/-- The always-succeeding hardware collaborator. -/
def hwOk : Nat → Nat → Bool := fun _ _ => true

/-- A cache state whose presence mask is exactly the byte range `[0, n)`,
with buffer size 256 (the adna tool's initial buffer size). -/
def maskUpTo (n : Nat) : CacheState :=
  ⟨256, fun i => decide (i < n)⟩

/-- The empty 256-byte cache state: nothing present. -/
def emptyCache : CacheState :=
  ⟨256, fun _ => false⟩

/-- The hardware request range a `config_fetch` call computes: the input
range with its already-present prefix and suffix trimmed off. -/
def reqOf (s : CacheState) (pos0 len0 : Nat) : Nat × Nat :=
  ((trimLead s pos0 len0).1,
    trimTrail s (trimLead s pos0 len0).1 (trimLead s pos0 len0).2)

/-- The cache state after the buffer-doubling step of `config_fetch`. -/
def grownState (s : CacheState) (stop : Nat) : CacheState :=
  if s.bufsize < stop then
    { bufsize := growSize s.bufsize stop,
      present := fun i => if s.bufsize ≤ i then false else s.present i }
  else s

end Adna

/-! ### lspci.c: config buffer, topology builder, bus mapping -/

namespace Lspci

/-- Register offsets and type codes used by lspci.c, from the external
libpci header `pci/header.h` (values fixed by the PCI specification).
For both the type-1 (PCI-to-PCI bridge) and the type-2 (CardBus) headers
the three bus-number registers sit at offsets 0x18, 0x19, 0x1a. -/
def PCI_VENDOR_ID : Nat := 0x00

/-- Class-code word offset (`PCI_CLASS_DEVICE`). -/
def PCI_CLASS_DEVICE : Nat := 0x0a

/-- Header-type byte offset (`PCI_HEADER_TYPE`). -/
def PCI_HEADER_TYPE : Nat := 0x0e

/-- Type-1 header: primary bus number offset. -/
def PCI_PRIMARY_BUS : Nat := 0x18

/-- Type-1 header: secondary bus number offset. -/
def PCI_SECONDARY_BUS : Nat := 0x19

/-- Type-1 header: subordinate bus number offset. -/
def PCI_SUBORDINATE_BUS : Nat := 0x1a

/-- Type-2 (CardBus) header: primary bus number offset. -/
def PCI_CB_PRIMARY_BUS : Nat := 0x18

/-- Type-2 (CardBus) header: CardBus bus number offset. -/
def PCI_CB_CARD_BUS : Nat := 0x19

/-- Type-2 (CardBus) header: subordinate bus number offset. -/
def PCI_CB_SUBORDINATE_BUS : Nat := 0x1a

/-- Header type code: normal device. -/
def PCI_HEADER_TYPE_NORMAL : Nat := 0

/-- Header type code: PCI-to-PCI bridge. -/
def PCI_HEADER_TYPE_BRIDGE : Nat := 1

/-- Header type code: CardBus bridge. -/
def PCI_HEADER_TYPE_CARDBUS : Nat := 2

/-- Class code of a PCI-to-PCI bridge (`PCI_CLASS_BRIDGE_PCI`). -/
def PCI_CLASS_BRIDGE_PCI : Nat := 0x0604

/-- lspci.c's view of one discovered function (`struct device` plus the
identity fields of its `struct pci_dev`).  The config buffer is the byte
array `byte config[256]`, modelled as a list of bytes. -/
structure Device where
  domain : Nat
  bus : Nat
  dev : Nat
  func : Nat
  config : List Nat
deriving DecidableEq

/-- `get_conf_byte`: `d->config[pos]`, a byte. -/
def get_conf_byte (d : Device) (pos : Nat) : Nat :=
  d.config.getD pos 0 % 256

/-- `get_conf_word`: `d->config[pos] | (d->config[pos+1] << 8)`. -/
def get_conf_word (d : Device) (pos : Nat) : Nat :=
  get_conf_byte d pos + 256 * get_conf_byte d (pos + 1)

/-- Size of the fixed per-device config buffer in lspci.c's
`struct device`: `byte config[256]`. -/
def configArraySize : Nat := 256

/-- lspci.c's `config_fetch`: the hardware request the call issues, if any:
`if (pos + len < d->config_cnt) return 1; return pci_read_block(d->dev,
pos, d->config + pos, len);`.  When a request is issued, `pci_read_block`
stores `len` bytes starting at `d->config + pos`. -/
def config_fetch_req (config_cnt pos len : Nat) : Option (Nat × Nat) :=
  if pos + len < config_cnt then none else some (pos, len)

/-- Success of an lspci.c `config_fetch` call, given the success function
of the hardware collaborator (`pci_read_block`). -/
def config_fetch_ok (hw : Nat → Nat → Bool) (config_cnt pos len : Nat) : Bool :=
  if pos + len < config_cnt then true else hw pos len

/-- The config-space accesses of `show_hex_dump`: the `config_fetch`
hardware requests it issues (each writing into `d->config`), and the bound
`cnt` up to which it then reads `d->config[i]` via `get_conf_byte`.
Mirrors: `cnt = d->config_cnt; if (show_hex >= 3 && config_fetch(d, cnt,
256-cnt)) { cnt = 256; if (show_hex >= 4 && config_fetch(d, 256, 4096-256))
cnt = 4096; } for(i=0; i<cnt; i++) ... get_conf_byte(d, i) ...`. -/
def show_hex_dump_accesses (hw : Nat → Nat → Bool) (config_cnt show_hex : Nat) :
    List (Nat × Nat) × Nat :=
  if 3 ≤ show_hex then
    let reqs1 := (config_fetch_req config_cnt config_cnt (256 - config_cnt)).toList
    if config_fetch_ok hw config_cnt config_cnt (256 - config_cnt) then
      if 4 ≤ show_hex then
        let reqs2 := (config_fetch_req config_cnt 256 (4096 - 256)).toList
        if config_fetch_ok hw config_cnt 256 (4096 - 256) then
          (reqs1 ++ reqs2, 4096)
        else (reqs1 ++ reqs2, 256)
      else (reqs1, 256)
    else (reqs1, config_cnt)
  else ([], config_cnt)

/-! #### Passive topology builder (`grow_tree` / `insert_dev`) -/

/-- lspci.c's `struct bridge` (tree links are represented positionally:
a bridge is identified by its index in the chain list). -/
structure Bridge where
  domain : Nat
  primary : Nat
  secondary : Nat
  subordinate : Nat
  brDev : Option Device
deriving DecidableEq

/-- The synthetic host bridge:
`static struct bridge host_bridge = { NULL, NULL, NULL, NULL, 0, ~0, 0, ~0, NULL };`
(`~0` as a C `unsigned int` is `2^32 - 1`). -/
def host_bridge : Bridge :=
  ⟨0, 2 ^ 32 - 1, 0, 2 ^ 32 - 1, none⟩

/-- Masked header type: `get_conf_byte(d, PCI_HEADER_TYPE) & 0x7f`. -/
def headerType (d : Device) : Nat :=
  get_conf_byte d PCI_HEADER_TYPE % 128

/-- `grow_tree`'s bridge classification: class code is PCI-to-PCI bridge
and the masked header type is bridge or cardbus. -/
def isBridgeDev (d : Device) : Bool :=
  get_conf_word d PCI_CLASS_DEVICE == PCI_CLASS_BRIDGE_PCI &&
    (headerType d == PCI_HEADER_TYPE_BRIDGE || headerType d == PCI_HEADER_TYPE_CARDBUS)

/-- The bridge record `grow_tree` builds for a classified bridge device.
Exactly as in the source, the `PCI_HEADER_TYPE_BRIDGE` branch reads the
`PCI_CB_*` offsets and the other branch reads the `PCI_*` offsets; the two
offset families coincide numerically. -/
def mkBridge (d : Device) : Bridge :=
  if headerType d = PCI_HEADER_TYPE_BRIDGE then
    ⟨d.domain, get_conf_byte d PCI_CB_PRIMARY_BUS, get_conf_byte d PCI_CB_CARD_BUS,
      get_conf_byte d PCI_CB_SUBORDINATE_BUS, some d⟩
  else
    ⟨d.domain, get_conf_byte d PCI_PRIMARY_BUS, get_conf_byte d PCI_SECONDARY_BUS,
      get_conf_byte d PCI_SUBORDINATE_BUS, some d⟩

/-- The bridge chain built by the first loop of `grow_tree`: the host
bridge followed by one record per classified bridge device, in registry
order (records are appended at the chain's tail). -/
def chain (registry : List Device) : List Bridge :=
  host_bridge :: (registry.filter isBridgeDev).map mkBridge

/-- C `unsigned int` subtraction modulo `2^32`. -/
def usub32 (a b : Nat) : Nat :=
  (a % 2 ^ 32 + (2 ^ 32 - b % 2 ^ 32)) % 2 ^ 32

/-- The width `c->subordinate - c->primary` (unsigned) used by the
parent-selection tie-break of `grow_tree`. -/
def width (ch : List Bridge) (ci : Nat) : Nat :=
  usub32 (ch.getD ci host_bridge).subordinate (ch.getD ci host_bridge).primary

/-- Candidate condition of the parent-selection loop of `grow_tree`:
`c != b && (c == &host_bridge || b->domain == c->domain) &&
b->primary >= c->secondary && b->primary <= c->subordinate`
(bridges are compared by chain position, as the C compares pointers;
the host bridge is chain position 0). -/
def cand (ch : List Bridge) (bi ci : Nat) : Bool :=
  ci != bi &&
    (ci == 0 || (ch.getD bi host_bridge).domain == (ch.getD ci host_bridge).domain) &&
    (ch.getD ci host_bridge).secondary ≤ (ch.getD bi host_bridge).primary &&
    (ch.getD bi host_bridge).primary ≤ (ch.getD ci host_bridge).subordinate

/-- One step of the parent-selection loop: take `ci` as the new best when
it is a candidate and (there is no best yet, or `ci`'s width is strictly
smaller than the best's). -/
def bestStep (ch : List Bridge) (bi : Nat) (best : Option Nat) (ci : Nat) : Option Nat :=
  if cand ch bi ci && best.elim true (fun bj => decide (width ch ci < width ch bj)) then
    some ci
  else best

/-- The parent-selection loop of `grow_tree` for the bridge at chain
position `bi`: scan the whole chain in order, replacing the current best
whenever a candidate has strictly smaller width. -/
def findBest (ch : List Bridge) (bi : Nat) : Option Nat :=
  (List.range ch.length).foldl (bestStep ch bi) none

/-- Child list of the bridge at chain position `pi`, as produced by the
parent-assignment loop: children are prepended (`b->next = best->child;
best->child = b;`) while `b` runs along the chain in order, so the list is
the reverse of chain order. -/
def childrenOf (ch : List Bridge) (pi : Nat) : List Nat :=
  ((List.range ch.length).filter (fun bi => findBest ch bi == some pi)).reverse

/-- lspci.c's `struct bus`: domain, bus number and the device list
(appended at the tail via `last_dev`). -/
structure Bus where
  domain : Nat
  number : Nat
  devs : List Device
deriving DecidableEq

/-- `find_bus`: position of the bus with the given domain and number in a
bridge's own bus list (the C walks the sibling chain and returns the first
match). -/
def findBusIdx : List Bus → Nat → Nat → Option Nat
  | [], _, _ => none
  | bus :: ls, dom, n =>
    if bus.domain = dom ∧ bus.number = n then some 0
    else (findBusIdx ls dom n).map (· + 1)

/-- One step of the bus-materialization loop of `grow_tree`
(`if (!find_bus(b, b->domain, b->secondary)) new_bus(b, b->domain,
b->secondary);`); `new_bus` prepends to the bridge's own bus list. -/
def addSecondaryBus (ls : List Bus) (b : Bridge) : List Bus :=
  match findBusIdx ls b.domain b.secondary with
  | some _ => ls
  | none => ⟨b.domain, b.secondary, []⟩ :: ls

/-- Bus lists after the materialization loop: every bridge's list starts
empty and the loop touches only the bridge's own list, so each chain
position ends up with the result of one `addSecondaryBus` step on `[]`. -/
def materialize (ch : List Bridge) : List (List Bus) :=
  ch.map (fun b => addSecondaryBus [] b)

/-- Append a device at the tail of the device list of bus `j`
(`*bus->last_dev = d; bus->last_dev = &d->next;`). -/
def appendToBus (ls : List Bus) (j : Nat) (d : Device) : List Bus :=
  ls.set j { ls.getD j ⟨0, 0, []⟩ with devs := (ls.getD j ⟨0, 0, []⟩).devs ++ [d] }

/-- The descent loop of `insert_dev` at the bridge at chain position `bi`:
the first child bridge of the same domain whose `[secondary, subordinate]`
range contains the bus number (`for(c=b->child; c; c=c->next) if (...)`). -/
def descendTo (ch : List Bridge) (bi dom n : Nat) : Option Nat :=
  (childrenOf ch bi).find? (fun ci =>
    (ch.getD ci host_bridge).domain == dom &&
    decide ((ch.getD ci host_bridge).secondary ≤ n) &&
    decide (n ≤ (ch.getD ci host_bridge).subordinate))

/-- `insert_dev`: place device `d` starting at the bridge at chain
position `bi`.  If the bridge's own bus list has a bus with `d`'s domain
and bus number, append `d` there; otherwise descend into the first child
bridge whose `[secondary, subordinate]` range (same domain) contains `d`'s
bus number; otherwise create the bus at this bridge (prepended) and append
`d` to it.  The C recursion is unbounded; `fuel` dominates the descent
depth (the depth is at most the chain length). -/
def insert_dev (ch : List Bridge) : Nat → Device → Nat → List (List Bus) → List (List Bus)
  | 0, _, _, st => st
  | fuel + 1, d, bi, st =>
    match findBusIdx (st.getD bi []) d.domain d.bus with
    | some j => st.set bi (appendToBus (st.getD bi []) j d)
    | none =>
      match descendTo ch bi d.domain d.bus with
      | some ci => insert_dev ch fuel d ci st
      | none => st.set bi (⟨d.domain, d.bus, [d]⟩ :: st.getD bi [])

/-- `grow_tree`: build the bridge chain, assign parents (implicitly, via
`findBest` / `childrenOf`), materialize each bridge's secondary bus, and
insert every registry device starting at the host bridge, in registry
order. -/
def grow_tree (registry : List Device) : List Bridge × List (List Bus) :=
  let ch := chain registry
  (ch, registry.foldl (fun st d => insert_dev ch (ch.length + 1) d 0 st) (materialize ch))

/-- Pre-order walk of the bridge tree from chain position `bi`. -/
def preorderAux (ch : List Bridge) : Nat → Nat → List Nat
  | 0, _ => []
  | fuel + 1, bi => bi :: (childrenOf ch bi).flatMap (preorderAux ch fuel)

/-- Pre-order list of chain positions of the whole built tree. -/
def preorderNodes (ch : List Bridge) : List Nat :=
  preorderAux ch (ch.length + 1) 0

/-- All buses of the built tree, in tree pre-order (each bridge's own bus
list kept in its stored sibling order). -/
def preorderBuses (ch : List Bridge) (st : List (List Bus)) : List Bus :=
  (preorderNodes ch).flatMap (fun bi => st.getD bi [])

/-- Concatenation of all buses' device lists in tree pre-order. -/
def preorderDevs (ch : List Bridge) (st : List (List Bus)) : List Device :=
  (preorderBuses ch st).flatMap Bus.devs

/-- The (domain, number) identity of a bus, the key `find_bus` matches. -/
def busKey (bus : Bus) : Nat × Nat := (bus.domain, bus.number)

/-- The (domain, bus) key of a device, determining where `insert_dev`
places it. -/
def devKey (d : Device) : Nat × Nat := (d.domain, d.bus)

/-- The chain position of the node whose bus list receives the devices of
key (dom, n): the host root for the host's own material key (0, 0), the
child selected by the descent loop when it finds one, and the host root
(where the bus is then created) otherwise. -/
def homeNode (ch : List Bridge) (dom n : Nat) : Nat :=
  if dom == 0 && n == 0 then 0 else (descendTo ch 0 dom n).getD 0

/-- The home node of a device: `homeNode` at its key. -/
def devHome (ch : List Bridge) (d : Device) : Nat :=
  homeNode ch d.domain d.bus

/-- The bus keys present in the bus list of chain position `bi`. -/
def keysAt (st : List (List Bus)) (bi : Nat) : List (Nat × Nat) :=
  (st.getD bi []).map busKey

/-- Device filter by (domain, bus) key. -/
def keyP (dom n : Nat) (d : Device) : Bool :=
  d.domain == dom && d.bus == n

/-- Device filter selecting the devices belonging to the bus with `bus`'s
key at chain position `bi`: the device's home node is `bi` and its key is
the bus's key. -/
def homedP (ch : List Bridge) (bi : Nat) (bus : Bus) (d : Device) : Bool :=
  decide (devHome ch d = bi) && d.domain == bus.domain && d.bus == bus.number

/-- Invariant of the device-insertion loop of `grow_tree`, after the
devices of `done` have been inserted: the state has one bus list per chain
node; every bus holds exactly the processed devices homed at its node with
its key, in processing order; bus keys are distinct within a node; every
processed device's key has a bus at its home node; every key at the host
root is the host's material key (0, 0) or is homed at the host root; and
the host root's material bus (0, 0) is present. -/
def TreeInv (ch : List Bridge) (done : List Device) (st : List (List Bus)) : Prop :=
  st.length = ch.length ∧
  (∀ bi, ∀ bus ∈ st.getD bi [], bus.devs = done.filter (homedP ch bi bus)) ∧
  (∀ bi, (keysAt st bi).Nodup) ∧
  (∀ d ∈ done, devKey d ∈ keysAt st (devHome ch d)) ∧
  (∀ k ∈ keysAt st 0, k = (0, 0) ∨ homeNode ch k.1 k.2 = 0) ∧
  (0, 0) ∈ keysAt st 0

/-- Lexicographic order on (domain, bus, device slot, function), the sort
order of the registry (`pci_sort_devices` sorts by domain, bus and devfn). -/
def devLe (a b : Device) : Bool :=
  decide (a.domain < b.domain) ||
    (a.domain == b.domain &&
      (decide (a.bus < b.bus) ||
        (a.bus == b.bus &&
          (decide (a.dev < b.dev) ||
            (a.dev == b.dev && decide (a.func ≤ b.func))))))

/-! #### Active bus mapping (`map_bridge`, `do_map_bridges`, `map_bridges`) -/

/-- lspci.c's `struct bus_bridge`: one bridge claim recorded on a bus
(`this` is the claimed primary bus; `first`/`last` the claimed forwarding
range; `bug` the anomaly tag, 1 = overlap, 2 = crossing).  In the C, `bug`
comes from `xmalloc` uninitialized; theorems treat the initial tag
explicitly. -/
structure BusBridge where
  thisBus : Nat
  dev : Nat
  func : Nat
  first : Nat
  last : Nat
  bug : Nat
deriving DecidableEq

/-- The all-zero `BusBridge`, used as lookup default. -/
def defaultBB : BusBridge := ⟨0, 0, 0, 0, 0, 0⟩

/-- The claim data of a recorded bridge that the validator never writes
(everything except the anomaly tag). -/
def claimData (b : BusBridge) : Nat × Nat × Nat × Nat × Nat :=
  (b.thisBus, b.dev, b.func, b.first, b.last)

/-- Result of `map_bridge`: the recorded claim plus the two warnings it
prints (`!!! Bridge points to invalid primary bus.` and `!!! Bridge points
to invalid bus range.`). -/
structure MapBridgeResult where
  entry : BusBridge
  warnPrimary : Bool
  warnRange : Bool
deriving DecidableEq

/-- `map_bridge` of lspci.c: record a bridge claim from the header bytes at
offsets `np`, `ns`, `nl`; a claim with `first > last` is accepted with
`last` clamped to `first` (`b->last = b->first;`) and flagged by the range
warning. -/
def map_bridge (d : Device) (np ns nl : Nat) : MapBridgeResult :=
  { entry :=
      { thisBus := get_conf_byte d np
        dev := d.dev
        func := d.func
        first := get_conf_byte d ns
        last :=
          if get_conf_byte d nl < get_conf_byte d ns then get_conf_byte d ns
          else get_conf_byte d nl
        bug := 0 }
    warnPrimary := get_conf_byte d np != d.bus
    warnRange := decide (get_conf_byte d nl < get_conf_byte d ns) }

/-- lspci.c's `struct bus_info` (one per possible bus number): existence
flag, `guestbook` visited flag, recorded bridge claims, and `via`, the
claim through which the validator entered this bus, identified by
(owning bus, index in that bus's claim list). -/
structure BusInfo where
  exist : Bool
  guestbook : Bool
  bridges : List BusBridge
  via : Option (Nat × Nat)

/-- The whole `bus_info` table. -/
structure VState where
  businfo : Nat → BusInfo

/-- Set the guestbook flag of bus `i` (`bi->guestbook = 1;`). -/
def setGuestbook (s : VState) (i : Nat) : VState :=
  ⟨fun j => if j = i then { s.businfo i with guestbook := true } else s.businfo j⟩

/-- Record the entry bridge of bus `i` (`bus_info[b->first].via = b;`). -/
def setVia (s : VState) (i : Nat) (v : Nat × Nat) : VState :=
  ⟨fun j => if j = i then { s.businfo i with via := some v } else s.businfo j⟩

/-- Tag claim `k` of bus `i` with anomaly `tag` (`b->bug = 1;` / `2`). -/
def setBug (s : VState) (i k tag : Nat) : VState :=
  ⟨fun j =>
    if j = i then
      { s.businfo i with
          bridges := (s.businfo i).bridges.set k
            { (s.businfo i).bridges.getD k defaultBB with bug := tag } }
    else s.businfo j⟩

/-- The claim of bus `bus` at index `ci` (the node `b` of the claim-list
iteration of `do_map_bridges`). -/
def claimAt (s : VState) (bus ci : Nat) : BusBridge :=
  (s.businfo bus).bridges.getD ci defaultBB

/-- The loop body of `do_map_bridges` runs over the claims of `bus` from
index `ci` within the caller-granted window `[mn, mx]`; the bus's
guestbook flag was set by the caller.  Overlap: target bus already
visited, tag 1, no recursion.  Crossing: range leaves the window, tag 2,
no recursion.  Otherwise: record the claim as the target's entry bridge,
mark the target visited and recurse into it with its own range as window.
Returns the new state and the buses entered, `none` when the fuel (an
embedding artifact; the C recursion is unbounded) runs out. -/
def dmb : Nat → VState → Nat → Nat → Nat → Nat → Option (VState × List Nat)
  | 0, _, _, _, _, _ => none
  | fuel + 1, s, bus, ci, mn, mx =>
    if ci < (s.businfo bus).bridges.length then
      if (s.businfo (claimAt s bus ci).first).guestbook then
        dmb fuel (setBug s bus ci 1) bus (ci + 1) mn mx
      else if (claimAt s bus ci).first < mn || mx < (claimAt s bus ci).last then
        dmb fuel (setBug s bus ci 2) bus (ci + 1) mn mx
      else
        match dmb fuel
            (setGuestbook (setVia s (claimAt s bus ci).first (bus, ci))
              (claimAt s bus ci).first)
            (claimAt s bus ci).first 0 (claimAt s bus ci).first (claimAt s bus ci).last with
        | none => none
        | some (s1, es1) =>
          match dmb fuel s1 bus (ci + 1) mn mx with
          | none => none
          | some (s2, es2) => some (s2, (claimAt s bus ci).first :: es1 ++ es2)
    else some (s, [])

/-- `do_map_bridges(bus, mn, mx)`: mark the bus visited, then run the
claim-processing loop; the entered-bus trace includes the bus itself. -/
def dmbEnter (fuel : Nat) (s : VState) (bus mn mx : Nat) :
    Option (VState × List Nat) :=
  match dmb fuel (setGuestbook s bus) bus 0 mn mx with
  | none => none
  | some (s', es) => some (s', bus :: es)

/-- Total number of recorded claims over the 256 possible buses. -/
def totalClaims (s : VState) : Nat :=
  ∑ i ∈ Finset.range 256, (s.businfo i).bridges.length

/-- Contribution of one bus to the termination measure: zero once
visited. -/
def busWeight (s : VState) (i : Nat) : Nat :=
  if (s.businfo i).guestbook then 0 else 1 + (s.businfo i).bridges.length

/-- Termination measure: total weight of the unvisited buses. -/
def unvisitedWeight (s : VState) : Nat :=
  ∑ i ∈ Finset.range 256, busWeight s i

/-- A fuel bound sufficient for the whole validation pass. -/
def fuelFor (s : VState) : Nat :=
  257 + 2 * totalClaims s

/-- One step of the top-level loop of `map_bridges`:
`if (bus_info[i].exists && !bus_info[i].guestbook) do_map_bridges(i, 0, 255);`. -/
def mbStep (acc : Option (VState × List Nat)) (i : Nat) : Option (VState × List Nat) :=
  match acc with
  | none => none
  | some (t, es) =>
    if (t.businfo i).exist && !(t.businfo i).guestbook then
      match dmbEnter (fuelFor t) t i 0 255 with
      | none => none
      | some (t', es') => some (t', es ++ es')
    else some (t, es)

/-- The validation pass of `map_bridges`: for every bus 0-255 that exists
and is not yet visited, run `do_map_bridges(i, 0, 255)`.  Returns the
final table and the concatenated entered-bus trace. -/
def map_bridges (s : VState) : Option (VState × List Nat) :=
  (List.range 256).foldl mbStep (some (s, []))

/-- Well-formedness mirrored from the C types: every recorded claim's
`first` is a byte (`byte first;`), so it indexes the 256-entry table. -/
def WF (s : VState) : Prop :=
  ∀ j, ∀ b ∈ (s.businfo j).bridges, b.first < 256

/-! #### Active probing (`do_map_bus` / `map_the_bus`) -/

/-- `filter.slot < 0 || filter.slot == dev` (a negative filter field means
"no filter" and is modelled as `none`). -/
def slotOk (filterSlot : Option Nat) (dev : Nat) : Bool :=
  match filterSlot with
  | none => true
  | some sl => sl == dev

/-- `filter.func < 0 || filter.func == func`. -/
def funcOk (filterFunc : Option Nat) (func : Nat) : Bool :=
  match filterFunc with
  | none => true
  | some ff => ff == func

/-- The vendor word `pci_read_word(p, PCI_VENDOR_ID)` read through the
hardware collaborator `hw` (a byte-read oracle indexed by the full PCI
address (domain, bus, device, function) and register offset). -/
def vendorAt (hw : Nat × Nat × Nat × Nat → Nat → Nat) (a : Nat × Nat × Nat × Nat) : Nat :=
  hw a 0 % 256 + 256 * (hw a 1 % 256)

/-- `vendor && vendor != 0xffff`: the function is present. -/
def vendorOk (v : Nat) : Bool :=
  v != 0 && v != 0xffff

/-- The device `scan_device` builds at a probed address: the first 64
config bytes, extended to 128 for a CardBus bridge. -/
def deviceAt (hw : Nat × Nat × Nat × Nat → Nat → Nat) (dom bus dev func : Nat) : Device :=
  if (hw (dom, bus, dev, func) PCI_HEADER_TYPE) % 256 % 128 = PCI_HEADER_TYPE_CARDBUS then
    ⟨dom, bus, dev, func, (List.range 128).map (fun i => hw (dom, bus, dev, func) i)⟩
  else
    ⟨dom, bus, dev, func, (List.range 64).map (fun i => hw (dom, bus, dev, func) i)⟩

/-- The multifunction test of `do_map_bus`:
`pci_read_byte(p, PCI_HEADER_TYPE) & 0x80`. -/
def mfBit (hw : Nat × Nat × Nat × Nat → Nat → Nat) (a : Nat × Nat × Nat × Nat) : Bool :=
  decide (hw a PCI_HEADER_TYPE % 256 / 128 = 1)

/-- The functions of one device slot that `do_map_bus` probes.  Function 0
runs first (`func_limit` starts at 1); functions 1-7 are probed only when
function 0 passed the filter, is present and declares itself
multifunction, raising `func_limit` to 8; the function filter applies to
each function individually. -/
def funcsFor (hw : Nat × Nat × Nat × Nat → Nat → Nat) (filterFunc : Option Nat)
    (bus dev : Nat) : List Nat :=
  if funcOk filterFunc 0 then
    0 :: (if vendorOk (vendorAt hw (0, bus, dev, 0)) && mfBit hw (0, bus, dev, 0) then
      ((List.range 8).drop 1).filter (funcOk filterFunc)
    else [])
  else []

/-- The bridge claim, if any, that probing one present function records on
the current bus: `map_bridge` with the type-1 offsets for a bridge header
and the type-2 offsets for a CardBus header (`scan_device` is subject to
the device filter, modelled by the address predicate `fmatch`). -/
def recordsFor (hw : Nat × Nat × Nat × Nat → Nat → Nat)
    (fmatch : Nat × Nat × Nat × Nat → Bool) (bus dev f : Nat) : List BusBridge :=
  if vendorOk (vendorAt hw (0, bus, dev, f)) && fmatch (0, bus, dev, f) then
    if headerType (deviceAt hw 0 bus dev f) = PCI_HEADER_TYPE_BRIDGE then
      [(map_bridge (deviceAt hw 0 bus dev f) PCI_PRIMARY_BUS PCI_SECONDARY_BUS
        PCI_SUBORDINATE_BUS).entry]
    else if headerType (deviceAt hw 0 bus dev f) = PCI_HEADER_TYPE_CARDBUS then
      [(map_bridge (deviceAt hw 0 bus dev f) PCI_CB_PRIMARY_BUS PCI_CB_CARD_BUS
        PCI_CB_SUBORDINATE_BUS).entry]
    else []
  else []

/-- Outcome of probing one bus: the addresses handed to `pci_get_dev`,
the bus's existence flag, and the claims recorded on it (`map_bridge`
prepends, so the stored list is the reverse of probe order). -/
structure ProbeOut where
  probed : List (Nat × Nat × Nat × Nat)
  exist : Bool
  records : List BusBridge

/-- `do_map_bus(bus)`: probe every device slot 0-31 passing the slot
filter and each of its functions per `funcsFor`; every constructed
address is `pci_get_dev(pacc, 0, bus, dev, func)` — domain hard-coded 0
(`/* XXX: Bus mapping supports only domain 0 */`). -/
def do_map_bus (hw : Nat × Nat × Nat × Nat → Nat → Nat)
    (fmatch : Nat × Nat × Nat × Nat → Bool)
    (filterSlot filterFunc : Option Nat) (bus : Nat) : ProbeOut :=
  { probed := ((List.range 32).filter (slotOk filterSlot)).flatMap
      (fun dev => (funcsFor hw filterFunc bus dev).map (fun f => (0, bus, dev, f)))
    exist := ((List.range 32).filter (slotOk filterSlot)).any
      (fun dev => (funcsFor hw filterFunc bus dev).any
        (fun f => vendorOk (vendorAt hw (0, bus, dev, f))))
    records := (((List.range 32).filter (slotOk filterSlot)).flatMap
      (fun dev => (funcsFor hw filterFunc bus dev).flatMap
        (fun f => recordsFor hw fmatch bus dev f))).reverse }

/-- The probing phase of `map_the_bus`: one bus if the filter names one,
otherwise all buses 0-255. -/
def map_the_bus_probed (hw : Nat × Nat × Nat × Nat → Nat → Nat)
    (fmatch : Nat × Nat × Nat × Nat → Bool)
    (filterSlot filterFunc filterBus : Option Nat) : List (Nat × Nat × Nat × Nat) :=
  match filterBus with
  | some b => (do_map_bus hw fmatch filterSlot filterFunc b).probed
  | none => (List.range 256).flatMap
      (fun b => (do_map_bus hw fmatch filterSlot filterFunc b).probed)

/-- Result projections for a validator run, used to observe a run's
outcome: the anomaly tag of one claim, one bus's entry bridge, and the
entered-bus trace. -/
def bugOf (r : Option (VState × List Nat)) (bus k : Nat) : Nat :=
  match r with
  | none => 99
  | some (t, _) => (claimAt t bus k).bug

/-- Entry-bridge projection of a validator run. -/
def viaOf (r : Option (VState × List Nat)) (j : Nat) : Option (Nat × Nat) :=
  match r with
  | none => none
  | some (t, _) => (t.businfo j).via

/-- Entered-bus trace projection of a validator run. -/
def enteredOf (r : Option (VState × List Nat)) : List Nat :=
  match r with
  | none => []
  | some (_, es) => es

/-- A `bus_info` table with a claim cycle: bus 0 claims bus 1 as range
[1,1], and bus 1 claims bus 0 back as range [0,5]. -/
def sCyc : VState :=
  ⟨fun i =>
    if i = 0 then ⟨true, false, [⟨0, 0, 0, 1, 1, 0⟩], none⟩
    else if i = 1 then ⟨true, false, [⟨1, 0, 0, 0, 5, 0⟩], none⟩
    else ⟨false, false, [], none⟩⟩

/-- The spec's overlap and crossing scenario: bus 0 has two claims both
targeting bus 5 (ranges [5,10] and [5,8]); bus 5 has a child claim with
range [4,30], which escapes the window [5,10] through which bus 5 is
entered. -/
def sVal : VState :=
  ⟨fun i =>
    if i = 0 then ⟨true, false, [⟨0, 0, 0, 5, 10, 0⟩, ⟨0, 1, 0, 5, 8, 0⟩], none⟩
    else if i = 5 then ⟨true, false, [⟨5, 2, 0, 4, 30, 0⟩], none⟩
    else ⟨false, false, [], none⟩⟩

/-- A hardware oracle whose domain-0 half presents vendor 0x1234
everywhere and whose non-zero-domain half answers 7. -/
def hwA : Nat × Nat × Nat × Nat → Nat → Nat :=
  fun a r => if a.1 = 0 then (if r = 0 then 0x34 else if r = 1 then 0x12 else 0) else 7

/-- As `hwA` but answering 9 outside domain 0. -/
def hwB : Nat × Nat × Nat × Nat → Nat → Nat :=
  fun a r => if a.1 = 0 then (if r = 0 then 0x34 else if r = 1 then 0x12 else 0) else 9

/-- A config buffer describing a PCI-to-PCI bridge with the given header
type code and (primary, secondary, subordinate) bus numbers: class word
0x0604 at 0x0a/0x0b, header type at 0x0e, bus numbers at 0x18-0x1a. -/
def cfgBridge (ht pri sec sub : Nat) : List Nat :=
  (List.range 32).map (fun i =>
    if i = PCI_CLASS_DEVICE then 0x04
    else if i = PCI_CLASS_DEVICE + 1 then 0x06
    else if i = PCI_HEADER_TYPE then ht
    else if i = PCI_PRIMARY_BUS then pri
    else if i = PCI_SECONDARY_BUS then sec
    else if i = PCI_SUBORDINATE_BUS then sub
    else 0)

/-- A bridge device at (domain 0, bus, dev, function 0). -/
def devBridge (busN devN pri sec sub : Nat) : Device :=
  ⟨0, busN, devN, 0, cfgBridge PCI_HEADER_TYPE_BRIDGE pri sec sub⟩

/-- A CardBus bridge device at (domain 0, bus, dev, function 0). -/
def devCardbus (busN devN pri sec sub : Nat) : Device :=
  ⟨0, busN, devN, 0, cfgBridge PCI_HEADER_TYPE_CARDBUS pri sec sub⟩

/-- A non-bridge device (all-zero config) at (domain 0, bus, dev, 0). -/
def devPlain (busN devN : Nat) : Device :=
  ⟨0, busN, devN, 0, []⟩

/-- The spec's tightest-interval scenario: bridge A with range [0,255],
bridge B with range [10,20], bridge C with primary bus 15, sorted by
(domain, bus, device, function). -/
def registryC4 : List Device :=
  [devBridge 0 0 0 0 255, devBridge 0 1 0 10 20, devBridge 15 0 15 21 21]

end Lspci

namespace Adna

theorem trimLead_add (s : CacheState) :
    ∀ len pos, (trimLead s pos len).1 + (trimLead s pos len).2 = pos + len := by
  intro len
  induction len with
  | zero => intro pos; simp [trimLead]
  | succ l ih =>
    intro pos
    by_cases h : pos < s.bufsize ∧ s.present pos
    · rw [trimLead, if_pos h, ih]
      omega
    · rw [trimLead, if_neg h]

theorem trimLead_ge (s : CacheState) :
    ∀ len pos, pos ≤ (trimLead s pos len).1 := by
  intro len
  induction len with
  | zero => intro pos; simp [trimLead]
  | succ l ih =>
    intro pos
    by_cases h : pos < s.bufsize ∧ s.present pos
    · rw [trimLead, if_pos h]
      exact le_trans (Nat.le_succ pos) (ih (pos + 1))
    · rw [trimLead, if_neg h]

theorem trimLead_present (s : CacheState) :
    ∀ len pos i, pos ≤ i → i < (trimLead s pos len).1 → s.present i = true := by
  intro len
  induction len with
  | zero => intro pos i hpi hi; rw [trimLead] at hi; omega
  | succ l ih =>
    intro pos i hpi hi
    by_cases h : pos < s.bufsize ∧ s.present pos
    · rw [trimLead, if_pos h] at hi
      rcases Nat.eq_or_lt_of_le hpi with heq | hlt
      · exact heq ▸ h.2
      · exact ih (pos + 1) i hlt hi
    · rw [trimLead, if_neg h] at hi; omega

theorem trimLead_stop (s : CacheState) :
    ∀ len pos, (trimLead s pos len).2 ≠ 0 →
      ¬((trimLead s pos len).1 < s.bufsize ∧ s.present (trimLead s pos len).1 = true) := by
  intro len
  induction len with
  | zero => intro pos h0; rw [trimLead] at h0; simp at h0
  | succ l ih =>
    intro pos h0
    by_cases h : pos < s.bufsize ∧ s.present pos
    · rw [trimLead, if_pos h] at h0 ⊢
      exact ih (pos + 1) h0
    · rw [trimLead, if_neg h] at h0 ⊢
      exact h

theorem trimTrail_le (s : CacheState) (pos : Nat) :
    ∀ len, trimTrail s pos len ≤ len := by
  intro len
  induction len with
  | zero => simp [trimTrail]
  | succ l ih =>
    by_cases h : pos + (l + 1) ≤ s.bufsize ∧ s.present (pos + l)
    · rw [trimTrail, if_pos h]
      exact le_trans ih (Nat.le_succ l)
    · rw [trimTrail, if_neg h]

theorem trimTrail_present (s : CacheState) (pos : Nat) :
    ∀ len i, pos + trimTrail s pos len ≤ i → i < pos + len → s.present i = true := by
  intro len
  induction len with
  | zero => intro i h1 h2; omega
  | succ l ih =>
    intro i h1 h2
    by_cases h : pos + (l + 1) ≤ s.bufsize ∧ s.present (pos + l)
    · rw [trimTrail, if_pos h] at h1
      rcases Nat.lt_or_ge i (pos + l) with hlt | hge
      · exact ih i h1 hlt
      · have : i = pos + l := by omega
        exact this ▸ h.2
    · rw [trimTrail, if_neg h] at h1; omega

theorem trimTrail_stop (s : CacheState) (pos : Nat) :
    ∀ len, trimTrail s pos len ≠ 0 →
      ¬(pos + trimTrail s pos len ≤ s.bufsize ∧
        s.present (pos + trimTrail s pos len - 1) = true) := by
  intro len
  induction len with
  | zero => intro h0; rw [trimTrail] at h0; simp at h0
  | succ l ih =>
    intro h0
    by_cases h : pos + (l + 1) ≤ s.bufsize ∧ s.present (pos + l)
    · rw [trimTrail, if_pos h] at h0 ⊢
      exact ih h0
    · rw [trimTrail, if_neg h] at h0 ⊢
      intro hc
      apply h
      refine ⟨hc.1, ?_⟩
      have : pos + (l + 1) - 1 = pos + l := by omega
      rw [this] at hc
      exact hc.2

theorem grownState_present (s : CacheState) (stop : Nat)
    (hb : ∀ i, s.bufsize ≤ i → s.present i = false) :
    ∀ i, (grownState s stop).present i = s.present i := by
  intro i
  rw [grownState]
  split
  · by_cases hj : s.bufsize ≤ i
    · simp [hj, hb i hj]
    · simp [hj]
  · rfl

theorem config_fetch_unfold (hw : Nat → Nat → Bool) (s : CacheState) (pos0 len0 : Nat) :
    config_fetch hw s pos0 len0 =
      if (reqOf s pos0 len0).2 = 0 then ⟨s, none, true⟩
      else if hw (reqOf s pos0 len0).1 (reqOf s pos0 len0).2 then
        ⟨{ grownState s (pos0 + len0) with
            present := fun i =>
              if (reqOf s pos0 len0).1 ≤ i ∧
                  i < (reqOf s pos0 len0).1 + (reqOf s pos0 len0).2 then true
              else (grownState s (pos0 + len0)).present i },
          some (reqOf s pos0 len0), true⟩
      else ⟨grownState s (pos0 + len0), some (reqOf s pos0 len0), false⟩ := rfl

theorem fetch_req_none (hw : Nat → Nat → Bool) (s : CacheState) (pos0 len0 : Nat)
    (h : (config_fetch hw s pos0 len0).req = none) :
    (∀ i, pos0 ≤ i → i < pos0 + len0 → s.present i = true) ∧
      (config_fetch hw s pos0 len0).ok = true ∧
      (config_fetch hw s pos0 len0).state = s := by
  rw [config_fetch_unfold] at h ⊢
  by_cases h0 : (reqOf s pos0 len0).2 = 0
  · rw [if_pos h0]
    refine ⟨?_, rfl, rfl⟩
    intro i h1 h2
    rcases Nat.lt_or_ge i (reqOf s pos0 len0).1 with hlt | hge
    · exact trimLead_present s len0 pos0 i h1 hlt
    · have hadd := trimLead_add s len0 pos0
      have hre : (reqOf s pos0 len0).1 = (trimLead s pos0 len0).1 := rfl
      have h0' : trimTrail s (trimLead s pos0 len0).1 (trimLead s pos0 len0).2 = 0 := h0
      exact trimTrail_present s (trimLead s pos0 len0).1 (trimLead s pos0 len0).2 i
        (by omega) (by omega)
  · rw [if_neg h0] at h
    split at h <;> simp at h

theorem fetch_req_some (hw : Nat → Nat → Bool) (s : CacheState) (pos0 len0 : Nat)
    (h : (config_fetch hw s pos0 len0).req.isSome = true) :
    (config_fetch hw s pos0 len0).req = some (reqOf s pos0 len0) ∧
      (reqOf s pos0 len0).2 ≠ 0 := by
  rw [config_fetch_unfold] at h ⊢
  by_cases h0 : (reqOf s pos0 len0).2 = 0
  · rw [if_pos h0] at h
    simp at h
  · rw [if_neg h0]
    refine ⟨?_, h0⟩
    split <;> rfl

theorem reqOf_bounds (s : CacheState) (pos0 len0 : Nat)
    (hb : ∀ i, s.bufsize ≤ i → s.present i = false)
    (h0 : (reqOf s pos0 len0).2 ≠ 0) :
    pos0 ≤ (reqOf s pos0 len0).1 ∧
      (reqOf s pos0 len0).1 + (reqOf s pos0 len0).2 ≤ pos0 + len0 ∧
      s.present (reqOf s pos0 len0).1 = false ∧
      s.present ((reqOf s pos0 len0).1 + (reqOf s pos0 len0).2 - 1) = false ∧
      (∀ i, pos0 ≤ i → i < (reqOf s pos0 len0).1 → s.present i = true) ∧
      (∀ i, (reqOf s pos0 len0).1 + (reqOf s pos0 len0).2 ≤ i → i < pos0 + len0 →
        s.present i = true) := by
  have hadd := trimLead_add s len0 pos0
  have hge := trimLead_ge s len0 pos0
  have hle := trimTrail_le s (trimLead s pos0 len0).1 (trimLead s pos0 len0).2
  have hre1 : (reqOf s pos0 len0).1 = (trimLead s pos0 len0).1 := rfl
  have hre2 : (reqOf s pos0 len0).2 =
      trimTrail s (trimLead s pos0 len0).1 (trimLead s pos0 len0).2 := rfl
  have hl1 : (trimLead s pos0 len0).2 ≠ 0 := by
    intro hc
    apply h0
    simp only [reqOf, hc, trimTrail]
  refine ⟨by omega, by omega, ?_, ?_, ?_, ?_⟩
  · have hstop := trimLead_stop s len0 pos0 hl1
    by_cases hlt : (trimLead s pos0 len0).1 < s.bufsize
    · by_cases hp : s.present (trimLead s pos0 len0).1 = true
      · exact absurd ⟨hlt, hp⟩ hstop
      · simpa using hp
    · exact hb _ (by omega)
  · have hstop := trimTrail_stop s (trimLead s pos0 len0).1 (trimLead s pos0 len0).2
      (by omega)
    by_cases hlt : (trimLead s pos0 len0).1 +
        trimTrail s (trimLead s pos0 len0).1 (trimLead s pos0 len0).2 ≤ s.bufsize
    · by_cases hp : s.present ((trimLead s pos0 len0).1 +
          trimTrail s (trimLead s pos0 len0).1 (trimLead s pos0 len0).2 - 1) = true
      · exact absurd ⟨hlt, hp⟩ hstop
      · simpa using hp
    · exact hb _ (by omega)
  · intro i h1 h2
    exact trimLead_present s len0 pos0 i h1 h2
  · intro i h1 h2
    refine trimTrail_present s (trimLead s pos0 len0).1 (trimLead s pos0 len0).2 i
      (by omega) (by omega)

theorem fetch_state_present (hw : Nat → Nat → Bool) (s : CacheState) (pos0 len0 : Nat)
    (hb : ∀ i, s.bufsize ≤ i → s.present i = false)
    (hok : (config_fetch hw s pos0 len0).ok = true) :
    ∀ i, (config_fetch hw s pos0 len0).state.present i =
      (s.present i ||
        decide ((reqOf s pos0 len0).1 ≤ i ∧
          i < (reqOf s pos0 len0).1 + (reqOf s pos0 len0).2)) := by
  intro i
  have hs1 := grownState_present s (pos0 + len0) hb
  rw [config_fetch_unfold] at hok ⊢
  by_cases h0 : (reqOf s pos0 len0).2 = 0
  · rw [if_pos h0]
    have hdec : decide ((reqOf s pos0 len0).1 ≤ i ∧
        i < (reqOf s pos0 len0).1 + (reqOf s pos0 len0).2) = false := by
      rw [h0]
      exact decide_eq_false (by omega)
    rw [hdec, Bool.or_false]
  · rw [if_neg h0] at hok ⊢
    by_cases hhw : hw (reqOf s pos0 len0).1 (reqOf s pos0 len0).2 = true
    · rw [if_pos hhw]
      by_cases hin : (reqOf s pos0 len0).1 ≤ i ∧
          i < (reqOf s pos0 len0).1 + (reqOf s pos0 len0).2
      · simp only [if_pos hin, decide_eq_true hin, Bool.or_true]
      · simp only [if_neg hin, decide_eq_false hin, Bool.or_false]
        exact hs1 i
    · rw [if_neg hhw] at hok
      simp at hok

theorem fetch_present_mono (hw : Nat → Nat → Bool) (s : CacheState) (pos0 len0 : Nat)
    (hb : ∀ i, s.bufsize ≤ i → s.present i = false) :
    ∀ i, s.present i = true → (config_fetch hw s pos0 len0).state.present i = true := by
  intro i hp
  have hib : i < s.bufsize := by
    by_contra hc
    rw [hb i (by omega)] at hp
    exact Bool.false_ne_true hp
  rw [config_fetch_unfold]
  by_cases h0 : (reqOf s pos0 len0).2 = 0
  · rw [if_pos h0]; exact hp
  · rw [if_neg h0]
    have hs1 := grownState_present s (pos0 + len0) hb i
    by_cases hhw : hw (reqOf s pos0 len0).1 (reqOf s pos0 len0).2 = true
    · rw [if_pos hhw]
      by_cases hin : (reqOf s pos0 len0).1 ≤ i ∧
          i < (reqOf s pos0 len0).1 + (reqOf s pos0 len0).2
      · exact if_pos hin
      · rw [show ({ grownState s (pos0 + len0) with
            present := fun j =>
              if (reqOf s pos0 len0).1 ≤ j ∧
                  j < (reqOf s pos0 len0).1 + (reqOf s pos0 len0).2 then true
              else (grownState s (pos0 + len0)).present j } : CacheState).present i =
            (if (reqOf s pos0 len0).1 ≤ i ∧
                i < (reqOf s pos0 len0).1 + (reqOf s pos0 len0).2 then true
             else (grownState s (pos0 + len0)).present i) from rfl,
          if_neg hin, hs1]
        exact hp
    · rw [if_neg hhw]
      rw [show (⟨grownState s (pos0 + len0), some (reqOf s pos0 len0), false⟩ :
          FetchResult).state.present i = (grownState s (pos0 + len0)).present i from rfl,
        hs1]
      exact hp

/-- C6, counterexample: `config_fetch` can re-request bytes that are already
present.  Starting from an empty cache, fetching `[0,10)` and then `[20,30)`
leaves a non-contiguous presence mask; a subsequent fetch of `[0,40)` trims
only the present prefix and suffix and issues one hardware request for
`[10,40)`, which re-requests the already-present bytes `[20,30)` — byte 25
is present yet lies inside the requested range.  This refutes the claim that
bytes already present are never re-requested. -/
theorem c6_counterexample :
    (config_fetch hwOk (config_fetch hwOk emptyCache 0 10).state 20 10).state.present 25
        = true ∧
      (config_fetch hwOk
          (config_fetch hwOk (config_fetch hwOk emptyCache 0 10).state 20 10).state
          0 40).req = some (10, 30) ∧
      10 ≤ 25 ∧ 25 < 10 + 30 := by
  decide

/-- C6 (amended): a `config_fetch` call requests from the hardware
collaborator a single contiguous subrange of `[offset, offset+length)`,
namely the range with its already-present prefix and suffix trimmed off
(so the first and last requested bytes are not present, and every trimmed
byte is); if the whole range is already present no hardware request is made
and the state is unchanged; on success exactly the requested subrange is
additionally marked present; and presence is monotonic.  (Already-present
bytes strictly inside the requested subrange are re-requested when the
missing bytes are non-contiguous; in particular the spec's example —
fetching `[0,64)` and then `[32,96)` issues exactly one further request,
for `[64,96)` — does hold, see the witness.) -/
theorem c6_config_fetch_amended (hw : Nat → Nat → Bool) (s : CacheState)
    (pos0 len0 : Nat) (hb : ∀ i, s.bufsize ≤ i → s.present i = false) :
    ((config_fetch hw s pos0 len0).req = none →
      (∀ i, pos0 ≤ i → i < pos0 + len0 → s.present i = true) ∧
      (config_fetch hw s pos0 len0).state = s) ∧
    ((config_fetch hw s pos0 len0).req.isSome = true →
      (config_fetch hw s pos0 len0).req = some (reqOf s pos0 len0) ∧
      pos0 ≤ (reqOf s pos0 len0).1 ∧
      (reqOf s pos0 len0).1 + (reqOf s pos0 len0).2 ≤ pos0 + len0 ∧
      s.present (reqOf s pos0 len0).1 = false ∧
      s.present ((reqOf s pos0 len0).1 + (reqOf s pos0 len0).2 - 1) = false ∧
      (∀ i, pos0 ≤ i → i < (reqOf s pos0 len0).1 → s.present i = true) ∧
      (∀ i, (reqOf s pos0 len0).1 + (reqOf s pos0 len0).2 ≤ i → i < pos0 + len0 →
        s.present i = true)) ∧
    ((config_fetch hw s pos0 len0).ok = true →
      ∀ i, (config_fetch hw s pos0 len0).state.present i =
        (s.present i || decide ((reqOf s pos0 len0).1 ≤ i ∧
          i < (reqOf s pos0 len0).1 + (reqOf s pos0 len0).2))) ∧
    (∀ i, s.present i = true → (config_fetch hw s pos0 len0).state.present i = true) := by
  refine ⟨?_, ?_, fetch_state_present hw s pos0 len0 hb, fetch_present_mono hw s pos0 len0 hb⟩
  · intro h
    exact ⟨(fetch_req_none hw s pos0 len0 h).1, (fetch_req_none hw s pos0 len0 h).2.2⟩
  · intro h
    obtain ⟨hsome, h0⟩ := fetch_req_some hw s pos0 len0 h
    obtain ⟨b1, b2, b3, b4, b5, b6⟩ := reqOf_bounds s pos0 len0 hb h0
    exact ⟨hsome, b1, b2, b3, b4, b5, b6⟩

/-- C6 witness: the amended theorem applied to the spec's concrete example.
With exactly `[0,64)` present (the state after fetching `[0,64)` into an
empty cache), fetching `[32,96)` issues exactly one hardware request, for
`[64,96)`, and afterwards byte 80 (and the whole of `[0,96)`) is present. -/
theorem c6_config_fetch_amended_witness :
    (config_fetch hwOk (maskUpTo 64) 32 64).req = some (reqOf (maskUpTo 64) 32 64) ∧
      reqOf (maskUpTo 64) 32 64 = (64, 32) ∧
      (maskUpTo 64).present (reqOf (maskUpTo 64) 32 64).1 = false ∧
      32 ≤ (reqOf (maskUpTo 64) 32 64).1 ∧
      (config_fetch hwOk (maskUpTo 64) 32 64).state.present 80 = true := by
  have hb : ∀ i, (maskUpTo 64).bufsize ≤ i → (maskUpTo 64).present i = false := by
    intro i hi
    simp only [maskUpTo] at hi ⊢
    exact decide_eq_false (by omega)
  have h := c6_config_fetch_amended hwOk (maskUpTo 64) 32 64 hb
  refine ⟨(h.2.1 (by decide)).1, by decide, (h.2.1 (by decide)).2.2.2.1, (h.2.1 (by decide)).2.1, ?_⟩
  have := h.2.2.1 (by decide) 80
  rw [this]
  decide

end Adna

namespace Lspci

/-- C9: lspci.c's extended hex-dump path accesses the per-device config
buffer out of bounds.  With `-xxxx` (`show_hex = 4`), a freshly scanned
device (`config_cnt = 64`) and succeeding hardware reads, `show_hex_dump`
issues `config_fetch(d, 256, 4096-256)` — writing bytes `[256, 4096)` into
the 256-byte `config` array — and then reads `config[i]` for every
`i < 4096`.  With `show_hex = 3` all accesses stay within 256 bytes, so
the violation is exactly the extended path. -/
theorem c9_hex_dump_out_of_bounds :
    (show_hex_dump_accesses (fun _ _ => true) 64 4).1 = [(64, 192), (256, 3840)] ∧
      (256, 3840) ∈ (show_hex_dump_accesses (fun _ _ => true) 64 4).1 ∧
      configArraySize < 256 + 3840 ∧
      (show_hex_dump_accesses (fun _ _ => true) 64 4).2 = 4096 ∧
      configArraySize < (show_hex_dump_accesses (fun _ _ => true) 64 4).2 ∧
      (∀ r ∈ (show_hex_dump_accesses (fun _ _ => true) 64 3).1,
        r.1 + r.2 ≤ configArraySize) ∧
      (show_hex_dump_accesses (fun _ _ => true) 64 3).2 ≤ configArraySize ∧
      (∀ r ∈ (show_hex_dump_accesses (fun _ _ => true) 128 3).1,
        r.1 + r.2 ≤ configArraySize) := by
  decide

theorem sg_guestbook (s : VState) (i j : Nat) :
    ((setGuestbook s i).businfo j).guestbook =
      ((s.businfo j).guestbook || decide (j = i)) := by
  rw [setGuestbook]
  by_cases h : j = i
  · subst h; simp
  · simp [h]

theorem sg_via (s : VState) (i j : Nat) :
    ((setGuestbook s i).businfo j).via = (s.businfo j).via := by
  rw [setGuestbook]
  by_cases h : j = i
  · subst h; simp
  · simp [h]

theorem sg_bridges (s : VState) (i j : Nat) :
    ((setGuestbook s i).businfo j).bridges = (s.businfo j).bridges := by
  rw [setGuestbook]
  by_cases h : j = i
  · subst h; simp
  · simp [h]

theorem sv_guestbook (s : VState) (i : Nat) (v : Nat × Nat) (j : Nat) :
    ((setVia s i v).businfo j).guestbook = (s.businfo j).guestbook := by
  rw [setVia]
  by_cases h : j = i
  · subst h; simp
  · simp [h]

theorem sv_via (s : VState) (i : Nat) (v : Nat × Nat) (j : Nat) :
    ((setVia s i v).businfo j).via =
      if j = i then some v else (s.businfo j).via := by
  rw [setVia]
  by_cases h : j = i
  · subst h; simp
  · simp [h]

theorem sv_bridges (s : VState) (i : Nat) (v : Nat × Nat) (j : Nat) :
    ((setVia s i v).businfo j).bridges = (s.businfo j).bridges := by
  rw [setVia]
  by_cases h : j = i
  · subst h; simp
  · simp [h]

theorem sb_guestbook (s : VState) (i k t j : Nat) :
    ((setBug s i k t).businfo j).guestbook = (s.businfo j).guestbook := by
  rw [setBug]
  by_cases h : j = i
  · subst h; simp
  · simp [h]

theorem sb_via (s : VState) (i k t j : Nat) :
    ((setBug s i k t).businfo j).via = (s.businfo j).via := by
  rw [setBug]
  by_cases h : j = i
  · subst h; simp
  · simp [h]

theorem sb_bridges_ne (s : VState) (i k t j : Nat) (h : j ≠ i) :
    ((setBug s i k t).businfo j).bridges = (s.businfo j).bridges := by
  rw [setBug]
  simp [h]

theorem sb_bridges_eq (s : VState) (i k t : Nat) :
    ((setBug s i k t).businfo i).bridges =
      (s.businfo i).bridges.set k
        { (s.businfo i).bridges.getD k defaultBB with bug := t } := by
  rw [setBug]
  simp

theorem map_claimData_setBug (l : List BusBridge) (k t : Nat) :
    (l.set k { l.getD k defaultBB with bug := t }).map claimData = l.map claimData := by
  by_cases hk : k < l.length
  · apply List.ext_getElem?
    intro n
    rw [List.getElem?_map, List.getElem?_map]
    by_cases hn : n = k
    · subst hn
      rw [List.getElem?_set_self (by simpa using hk)]
      rw [List.getD_eq_getElem _ _ hk, List.getElem?_eq_getElem hk]
      rfl
    · rw [List.getElem?_set_ne (by omega)]
  · rw [List.set_eq_of_length_le (by omega)]

theorem sb_getD_ne (s : VState) (i k t k' : Nat) (h : k' ≠ k) :
    ((setBug s i k t).businfo i).bridges.getD k' defaultBB =
      (s.businfo i).bridges.getD k' defaultBB := by
  rw [sb_bridges_eq]
  rw [List.getD_eq_getElem?_getD, List.getD_eq_getElem?_getD,
    List.getElem?_set_ne (by omega), ← List.getD_eq_getElem?_getD]

theorem sb_getD_eq (s : VState) (i k t : Nat)
    (hk : k < (s.businfo i).bridges.length) :
    ((setBug s i k t).businfo i).bridges.getD k defaultBB =
      { (s.businfo i).bridges.getD k defaultBB with bug := t } := by
  rw [sb_bridges_eq]
  rw [List.getD_eq_getElem?_getD, List.getElem?_set_self (by simpa using hk)]
  rfl

theorem claimData_getD (l l' : List BusBridge)
    (h : l.map claimData = l'.map claimData) (k : Nat) :
    claimData (l.getD k defaultBB) = claimData (l'.getD k defaultBB) := by
  have hlen : l.length = l'.length := by
    have := congrArg List.length h
    simpa using this
  by_cases hk : k < l.length
  · have h1 : (l.map claimData)[k]? = (l'.map claimData)[k]? := by rw [h]
    rw [List.getElem?_map, List.getElem?_map] at h1
    rw [List.getElem?_eq_getElem hk, List.getElem?_eq_getElem (by omega)] at h1
    rw [List.getD_eq_getElem _ _ hk, List.getD_eq_getElem _ _ (by omega)]
    simpa using h1
  · rw [List.getD_eq_default _ _ (by omega), List.getD_eq_default _ _ (by omega)]

/-- Effect of marking and recording an entered bus on the guestbook. -/
theorem enter_guestbook (s : VState) (bf : Nat) (v : Nat × Nat) (j : Nat) :
    (((setGuestbook (setVia s bf v) bf).businfo j).guestbook = true ↔
      ((s.businfo j).guestbook = true ∨ j = bf)) := by
  rw [sg_guestbook, sv_guestbook]
  simp

/-- Effect of marking and recording an entered bus on the via fields. -/
theorem enter_via (s : VState) (bf : Nat) (v : Nat × Nat) (j : Nat) :
    ((setGuestbook (setVia s bf v) bf).businfo j).via =
      if j = bf then some v else (s.businfo j).via := by
  rw [sg_via, sv_via]

/-- Entering a bus does not touch any claim list. -/
theorem enter_bridges (s : VState) (bf : Nat) (v : Nat × Nat) (j : Nat) :
    ((setGuestbook (setVia s bf v) bf).businfo j).bridges = (s.businfo j).bridges := by
  rw [sg_bridges, sv_bridges]

/-- Main invariant of the claim-processing loop: claim data is never
modified; the final guestbook is the initial one plus exactly the entered
buses; every entered bus was unvisited; no bus is entered twice; the entry
bridge of an already-visited bus is never rewritten; and the claim lists
(tags included) of visited buses other than the current one are
untouched. -/
theorem dmb_spec (fuel : Nat) :
    ∀ (s : VState) (bus ci mn mx : Nat) (s' : VState) (es : List Nat),
      dmb fuel s bus ci mn mx = some (s', es) →
      (∀ j, (s'.businfo j).bridges.map claimData = (s.businfo j).bridges.map claimData) ∧
      (∀ j, ((s'.businfo j).guestbook = true ↔ ((s.businfo j).guestbook = true ∨ j ∈ es))) ∧
      (∀ j, j ∈ es → (s.businfo j).guestbook = false) ∧
      es.Nodup ∧
      (∀ j, (s.businfo j).guestbook = true → (s'.businfo j).via = (s.businfo j).via) ∧
      (∀ j, j ≠ bus → (s.businfo j).guestbook = true →
        (s'.businfo j).bridges = (s.businfo j).bridges) := by
  induction fuel with
  | zero =>
    intro s bus ci mn mx s' es h
    exact absurd h (by rw [dmb]; simp)
  | succ f ih =>
    intro s bus ci mn mx s' es h
    rw [dmb] at h
    by_cases hci : ci < (s.businfo bus).bridges.length
    · rw [if_pos hci] at h
      by_cases hov : (s.businfo (claimAt s bus ci).first).guestbook = true
      · rw [if_pos hov] at h
        obtain ⟨g1, g2, g3, g4, g5, g6⟩ := ih _ _ _ _ _ _ _ h
        refine ⟨?_, ?_, ?_, g4, ?_, ?_⟩
        · intro j
          rw [g1 j]
          by_cases hj : j = bus
          · subst hj
            rw [sb_bridges_eq, map_claimData_setBug]
          · rw [sb_bridges_ne _ _ _ _ _ hj]
        · intro j
          rw [g2 j, sb_guestbook]
        · intro j hj
          have := g3 j hj
          rwa [sb_guestbook] at this
        · intro j hj
          rw [g5 j (by rwa [sb_guestbook]), sb_via]
        · intro j hj hg
          rw [g6 j hj (by rwa [sb_guestbook]), sb_bridges_ne _ _ _ _ _ hj]
      · rw [if_neg hov] at h
        by_cases hcr : ((claimAt s bus ci).first < mn || mx < (claimAt s bus ci).last) = true
        · rw [if_pos hcr] at h
          obtain ⟨g1, g2, g3, g4, g5, g6⟩ := ih _ _ _ _ _ _ _ h
          refine ⟨?_, ?_, ?_, g4, ?_, ?_⟩
          · intro j
            rw [g1 j]
            by_cases hj : j = bus
            · subst hj
              rw [sb_bridges_eq, map_claimData_setBug]
            · rw [sb_bridges_ne _ _ _ _ _ hj]
          · intro j
            rw [g2 j, sb_guestbook]
          · intro j hj
            have := g3 j hj
            rwa [sb_guestbook] at this
          · intro j hj
            rw [g5 j (by rwa [sb_guestbook]), sb_via]
          · intro j hj hg
            rw [g6 j hj (by rwa [sb_guestbook]), sb_bridges_ne _ _ _ _ _ hj]
        · rw [if_neg hcr] at h
          cases hinner : dmb f
              (setGuestbook (setVia s (claimAt s bus ci).first (bus, ci))
                (claimAt s bus ci).first)
              (claimAt s bus ci).first 0 (claimAt s bus ci).first
              (claimAt s bus ci).last with
          | none =>
            rw [hinner] at h
            simp at h
          | some p1 =>
            obtain ⟨s1, es1⟩ := p1
            rw [hinner] at h
            dsimp only at h
            cases hcont : dmb f s1 bus (ci + 1) mn mx with
            | none =>
              rw [hcont] at h
              simp at h
            | some p2 =>
              obtain ⟨s2, es2⟩ := p2
              rw [hcont] at h
              dsimp only at h
              simp only [Option.some.injEq, Prod.mk.injEq] at h
              obtain ⟨hs, hes⟩ := h
              subst hs
              subst hes
              have hovf : (s.businfo (claimAt s bus ci).first).guestbook = false :=
                Bool.not_eq_true _ ▸ (by simpa using hov)
              obtain ⟨i1, i2, i3, i4, i5, i6⟩ := ih _ _ _ _ _ _ _ hinner
              obtain ⟨c1, c2, c3, c4, c5, c6⟩ := ih _ _ _ _ _ _ _ hcont
              have hsvg : ∀ j,
                  (((setGuestbook (setVia s (claimAt s bus ci).first (bus, ci))
                    (claimAt s bus ci).first).businfo j).guestbook = true ↔
                    ((s.businfo j).guestbook = true ∨ j = (claimAt s bus ci).first)) :=
                fun j => enter_guestbook s _ _ j
              refine ⟨?_, ?_, ?_, ?_, ?_, ?_⟩
              · intro j
                rw [c1 j, i1 j, enter_bridges]
              · intro j
                rw [c2 j, i2 j, hsvg j]
                simp only [List.mem_cons, List.mem_append]
                tauto
              · intro j hj
                rcases List.mem_cons.mp hj with rfl | hj'
                · exact hovf
                · rcases List.mem_append.mp hj' with hj1 | hj2
                  · have h1 := i3 j hj1
                    by_contra hc
                    rw [Bool.not_eq_false] at hc
                    have h2 := (hsvg j).mpr (Or.inl hc)
                    rw [h1] at h2
                    exact absurd h2 (by simp)
                  · have h1 := c3 j hj2
                    by_contra hc
                    rw [Bool.not_eq_false] at hc
                    have h2 := (i2 j).mpr (Or.inl ((hsvg j).mpr (Or.inl hc)))
                    rw [h1] at h2
                    exact absurd h2 (by simp)
              · have hbf1 : (claimAt s bus ci).first ∉ es1 := by
                  intro hmem
                  have := i3 _ hmem
                  rw [show (((setGuestbook (setVia s (claimAt s bus ci).first (bus, ci))
                      (claimAt s bus ci).first).businfo
                      (claimAt s bus ci).first).guestbook) = true from
                    (hsvg _).mpr (Or.inr rfl)] at this
                  exact absurd this (by simp)
                have hbf2 : (claimAt s bus ci).first ∉ es2 := by
                  intro hmem
                  have h1 := c3 _ hmem
                  have h2 := (i2 (claimAt s bus ci).first).mpr
                    (Or.inl ((hsvg _).mpr (Or.inr rfl)))
                  rw [h1] at h2
                  exact absurd h2 (by simp)
                have hdisj : ∀ j ∈ es1, j ∉ es2 := by
                  intro j hj1 hj2
                  have h1 := (i2 j).mpr (Or.inr hj1)
                  have h2 := c3 j hj2
                  rw [h2] at h1
                  exact absurd h1 (by simp)
                have hnotmem : (claimAt s bus ci).first ∉ es1 ++ es2 := by
                  intro hc
                  rcases List.mem_append.mp hc with hc1 | hc2
                  · exact hbf1 hc1
                  · exact hbf2 hc2
                exact List.nodup_cons.mpr
                  ⟨hnotmem, List.Nodup.append i4 c4 (fun a ha hb => hdisj a ha hb)⟩
              · intro j hj
                have hjne : j ≠ (claimAt s bus ci).first := by
                  intro hc
                  subst hc
                  rw [hj] at hovf
                  exact absurd hovf (by simp)
                have hv1 : ((setGuestbook (setVia s (claimAt s bus ci).first (bus, ci))
                    (claimAt s bus ci).first).businfo j).via = (s.businfo j).via := by
                  rw [enter_via, if_neg hjne]
                have hg1 := (hsvg j).mpr (Or.inl hj)
                have hg2 := (i2 j).mpr (Or.inl hg1)
                rw [c5 j hg2, i5 j hg1, hv1]
              · intro j hjb hj
                have hjne : j ≠ (claimAt s bus ci).first := by
                  intro hc
                  subst hc
                  rw [hj] at hovf
                  exact absurd hovf (by simp)
                have hg1 := (hsvg j).mpr (Or.inl hj)
                have hg2 := (i2 j).mpr (Or.inl hg1)
                rw [c6 j hjb hg2, i6 j hjne hg1, enter_bridges]
    · rw [if_neg hci] at h
      simp only [Option.some.injEq, Prod.mk.injEq] at h
      obtain ⟨hs, hes⟩ := h
      subst hs
      subst hes
      refine ⟨fun j => rfl, fun j => by simp, by simp, List.nodup_nil,
        fun j _ => rfl, fun j _ _ => rfl⟩

theorem length_eq_of_mapClaim (l l' : List BusBridge)
    (h : l.map claimData = l'.map claimData) : l.length = l'.length := by
  have := congrArg List.length h
  simpa using this

theorem WF_dmb (fuel : Nat) (s : VState) (bus ci mn mx : Nat) (s' : VState)
    (es : List Nat) (h : dmb fuel s bus ci mn mx = some (s', es)) (hwf : WF s) :
    WF s' := by
  obtain ⟨G1, _, _, _, _, _⟩ := dmb_spec fuel _ _ _ _ _ _ _ h
  intro j b hb
  have hmem : claimData b ∈ (s'.businfo j).bridges.map claimData :=
    List.mem_map_of_mem _ hb
  rw [G1 j] at hmem
  obtain ⟨b0, hb0, hcd⟩ := List.mem_map.mp hmem
  have : b0.first = b.first := by
    have := congrArg (fun p => p.2.2.2.1) hcd
    simpa [claimData] using this
  rw [← this]
  exact hwf j b0 hb0

theorem WF_setBug (s : VState) (i k t : Nat) (hwf : WF s) : WF (setBug s i k t) := by
  intro j b hb
  by_cases hj : j = i
  · subst hj
    rw [sb_bridges_eq] at hb
    rcases List.mem_or_eq_of_mem_set hb with hb' | rfl
    · exact hwf j b hb'
    · show ((s.businfo j).bridges.getD k defaultBB).first < 256
      by_cases hk : k < (s.businfo j).bridges.length
      · rw [List.getD_eq_getElem _ _ hk]
        exact hwf j _ (List.getElem_mem hk)
      · rw [List.getD_eq_default _ _ (by omega)]
        norm_num [defaultBB]
  · rw [sb_bridges_ne _ _ _ _ _ hj] at hb
    exact hwf j b hb

theorem WF_enter (s : VState) (bf : Nat) (v : Nat × Nat) (hwf : WF s) :
    WF (setGuestbook (setVia s bf v) bf) := by
  intro j b hb
  rw [enter_bridges] at hb
  exact hwf j b hb

theorem WF_setGuestbook (s : VState) (i : Nat) (hwf : WF s) : WF (setGuestbook s i) := by
  intro j b hb
  rw [sg_bridges] at hb
  exact hwf j b hb

theorem unvisitedWeight_setBug (s : VState) (i k t : Nat) :
    unvisitedWeight (setBug s i k t) = unvisitedWeight s := by
  refine Finset.sum_congr rfl (fun x _ => ?_)
  rw [busWeight, busWeight, sb_guestbook]
  by_cases hx : x = i
  · subst hx
    rw [sb_bridges_eq]
    simp
  · rw [sb_bridges_ne _ _ _ _ _ hx]

theorem unvisitedWeight_enter (s : VState) (bf : Nat) (v : Nat × Nat)
    (hbf : bf < 256) (hg : (s.businfo bf).guestbook = false) :
    unvisitedWeight s =
      unvisitedWeight (setGuestbook (setVia s bf v) bf) +
        (1 + (s.businfo bf).bridges.length) := by
  rw [unvisitedWeight, unvisitedWeight]
  rw [← Finset.sum_erase_add _ _ (Finset.mem_range.mpr hbf),
    ← Finset.sum_erase_add _ _ (Finset.mem_range.mpr hbf)]
  have h1 : ∀ x ∈ (Finset.range 256).erase bf,
      busWeight (setGuestbook (setVia s bf v) bf) x = busWeight s x := by
    intro x hx
    have hxne : x ≠ bf := (Finset.mem_erase.mp hx).1
    rw [busWeight, busWeight, enter_bridges]
    rw [sg_guestbook, sv_guestbook]
    simp [hxne]
  have hsum : ∑ x ∈ (Finset.range 256).erase bf,
      busWeight (setGuestbook (setVia s bf v) bf) x =
      ∑ x ∈ (Finset.range 256).erase bf, busWeight s x :=
    Finset.sum_congr rfl h1
  have h2 : busWeight s bf = 1 + (s.businfo bf).bridges.length := by
    rw [busWeight, hg]
    simp
  have h3 : busWeight (setGuestbook (setVia s bf v) bf) bf = 0 := by
    rw [busWeight]
    rw [if_pos]
    rw [sg_guestbook]
    simp
  rw [hsum, h2, h3]
  omega

theorem unvisitedWeight_dmb_le (fuel : Nat) (s : VState) (bus ci mn mx : Nat)
    (s' : VState) (es : List Nat) (h : dmb fuel s bus ci mn mx = some (s', es)) :
    unvisitedWeight s' ≤ unvisitedWeight s := by
  obtain ⟨G1, G2, _, _, _, _⟩ := dmb_spec fuel _ _ _ _ _ _ _ h
  refine Finset.sum_le_sum (fun x _ => ?_)
  rw [busWeight, busWeight]
  by_cases hx : (s.businfo x).guestbook = true
  · rw [if_pos ((G2 x).mpr (Or.inl hx)), if_pos hx]
  · rw [length_eq_of_mapClaim _ _ (G1 x)]
    split
    · omega
    · omega

theorem dmb_length_pres (fuel : Nat) (s : VState) (bus ci mn mx : Nat)
    (s' : VState) (es : List Nat) (h : dmb fuel s bus ci mn mx = some (s', es)) :
    ∀ j, (s'.businfo j).bridges.length = (s.businfo j).bridges.length := by
  obtain ⟨G1, _, _, _, _, _⟩ := dmb_spec fuel _ _ _ _ _ _ _ h
  exact fun j => length_eq_of_mapClaim _ _ (G1 j)

/-- Fuel sufficiency for the claim-processing loop: the remaining claims
of the current bus plus the total weight of the unvisited buses bound the
recursion. -/
theorem dmb_total (fuel : Nat) :
    ∀ (s : VState) (bus ci mn mx : Nat), WF s →
      (s.businfo bus).bridges.length - ci + unvisitedWeight s < fuel →
      (dmb fuel s bus ci mn mx).isSome = true := by
  induction fuel with
  | zero =>
    intro s bus ci mn mx _ hm
    omega
  | succ f ih =>
    intro s bus ci mn mx hwf hm
    rw [dmb]
    by_cases hci : ci < (s.businfo bus).bridges.length
    · rw [if_pos hci]
      by_cases hov : (s.businfo (claimAt s bus ci).first).guestbook = true
      · rw [if_pos hov]
        refine ih _ _ _ _ _ (WF_setBug s bus ci 1 hwf) ?_
        have h1 : ((setBug s bus ci 1).businfo bus).bridges.length =
            (s.businfo bus).bridges.length := by
          rw [sb_bridges_eq]
          simp
        rw [h1, unvisitedWeight_setBug]
        omega
      · rw [if_neg hov]
        by_cases hcr : ((claimAt s bus ci).first < mn || mx < (claimAt s bus ci).last) = true
        · rw [if_pos hcr]
          refine ih _ _ _ _ _ (WF_setBug s bus ci 2 hwf) ?_
          have h1 : ((setBug s bus ci 2).businfo bus).bridges.length =
              (s.businfo bus).bridges.length := by
            rw [sb_bridges_eq]
            simp
          rw [h1, unvisitedWeight_setBug]
          omega
        · rw [if_neg hcr]
          have hovf : (s.businfo (claimAt s bus ci).first).guestbook = false := by
            rw [Bool.not_eq_true] at hov
            exact hov
          have hbf : (claimAt s bus ci).first < 256 := by
            refine hwf bus _ ?_
            rw [claimAt, List.getD_eq_getElem _ _ hci]
            exact List.getElem_mem hci
          have hWeq := unvisitedWeight_enter s (claimAt s bus ci).first (bus, ci) hbf hovf
          have hinner_total := ih
            (setGuestbook (setVia s (claimAt s bus ci).first (bus, ci))
              (claimAt s bus ci).first)
            (claimAt s bus ci).first 0 (claimAt s bus ci).first (claimAt s bus ci).last
            (WF_enter s _ _ hwf)
            (by
              have hlbf : (((setGuestbook (setVia s (claimAt s bus ci).first (bus, ci))
                  (claimAt s bus ci).first).businfo
                  (claimAt s bus ci).first).bridges.length) =
                  (s.businfo (claimAt s bus ci).first).bridges.length := by
                rw [enter_bridges]
              rw [hlbf]
              omega)
          obtain ⟨p1, hi⟩ := Option.isSome_iff_exists.mp hinner_total
          obtain ⟨s1, es1⟩ := p1
          rw [hi]
          dsimp only
          have hlen1 : (s1.businfo bus).bridges.length =
              (s.businfo bus).bridges.length := by
            rw [dmb_length_pres f _ _ _ _ _ _ _ hi bus, enter_bridges]
          have hW1 : unvisitedWeight s1 ≤
              unvisitedWeight (setGuestbook (setVia s (claimAt s bus ci).first (bus, ci))
                (claimAt s bus ci).first) :=
            unvisitedWeight_dmb_le f _ _ _ _ _ _ _ hi
          have hcont_total := ih s1 bus (ci + 1) mn mx
            (WF_dmb f _ _ _ _ _ _ _ hi (WF_enter s _ _ hwf))
            (by rw [hlen1]; omega)
          obtain ⟨p2, hc⟩ := Option.isSome_iff_exists.mp hcont_total
          obtain ⟨s2, es2⟩ := p2
          rw [hc]
          rfl
    · rw [if_neg hci]
      rfl

theorem unvisitedWeight_le (t : VState) :
    unvisitedWeight t ≤ 256 + totalClaims t := by
  have h1 : unvisitedWeight t ≤
      ∑ i ∈ Finset.range 256, (1 + (t.businfo i).bridges.length) := by
    refine Finset.sum_le_sum (fun x _ => ?_)
    rw [busWeight]
    split
    · omega
    · omega
  have h2 : ∑ i ∈ Finset.range 256, (1 + (t.businfo i).bridges.length) =
      256 + totalClaims t := by
    rw [Finset.sum_add_distrib, Finset.sum_const, Finset.card_range, totalClaims]
    simp
  omega

theorem length_le_totalClaims (t : VState) (i : Nat) (hi : i < 256) :
    (t.businfo i).bridges.length ≤ totalClaims t := by
  rw [totalClaims]
  exact Finset.single_le_sum (f := fun x => (t.businfo x).bridges.length)
    (fun x _ => Nat.zero_le _) (Finset.mem_range.mpr hi)

theorem unvisitedWeight_setGuestbook_le (t : VState) (i : Nat) :
    unvisitedWeight (setGuestbook t i) ≤ unvisitedWeight t := by
  refine Finset.sum_le_sum (fun x _ => ?_)
  rw [busWeight, busWeight, sg_guestbook, sg_bridges]
  by_cases hx : (t.businfo x).guestbook = true
  · simp [hx]
  · rw [Bool.not_eq_true] at hx
    rw [hx]
    by_cases hxi : x = i
    · simp [hxi]
    · simp [hxi]

theorem dmbEnter_total (t : VState) (i : Nat) (hwf : WF t) (hi : i < 256) :
    (dmbEnter (fuelFor t) t i 0 255).isSome = true := by
  have hm : ((setGuestbook t i).businfo i).bridges.length - 0 +
      unvisitedWeight (setGuestbook t i) < fuelFor t := by
    have e1 : ((setGuestbook t i).businfo i).bridges.length =
        (t.businfo i).bridges.length := by rw [sg_bridges]
    have e2 := unvisitedWeight_setGuestbook_le t i
    have e3 := unvisitedWeight_le t
    have e4 := length_le_totalClaims t i hi
    rw [e1, fuelFor]
    omega
  have h := dmb_total (fuelFor t) (setGuestbook t i) i 0 0 255
    (WF_setGuestbook t i hwf) hm
  obtain ⟨p, hp⟩ := Option.isSome_iff_exists.mp h
  obtain ⟨t', es⟩ := p
  rw [dmbEnter, hp]
  rfl

theorem dmbEnter_spec (fuel : Nat) (t : VState) (i mn mx : Nat) (t' : VState)
    (es' : List Nat) (h : dmbEnter fuel t i mn mx = some (t', es'))
    (hgi : (t.businfo i).guestbook = false) :
    es'.Nodup ∧ (∀ j ∈ es', (t.businfo j).guestbook = false) ∧
      (∀ j, (t'.businfo j).guestbook = true ↔
        ((t.businfo j).guestbook = true ∨ j ∈ es')) ∧
      (WF t → WF t') := by
  rw [dmbEnter] at h
  cases hp : dmb fuel (setGuestbook t i) i 0 mn mx with
  | none =>
    rw [hp] at h
    simp at h
  | some p =>
    obtain ⟨t2, es⟩ := p
    rw [hp] at h
    dsimp only at h
    simp only [Option.some.injEq, Prod.mk.injEq] at h
    obtain ⟨ht, hes⟩ := h
    subst ht
    subst hes
    obtain ⟨G1, G2, G3, G4, G5, G6⟩ := dmb_spec fuel _ _ _ _ _ _ _ hp
    have hsg : ∀ j, ((setGuestbook t i).businfo j).guestbook = true ↔
        ((t.businfo j).guestbook = true ∨ j = i) := by
      intro j
      rw [sg_guestbook]
      simp
    refine ⟨?_, ?_, ?_, ?_⟩
    · rw [List.nodup_cons]
      refine ⟨?_, G4⟩
      intro hc
      have h1 := G3 i hc
      have h2 := (hsg i).mpr (Or.inr rfl)
      rw [h1] at h2
      exact absurd h2 (by simp)
    · intro j hj
      rcases List.mem_cons.mp hj with rfl | hj'
      · exact hgi
      · have := G3 j hj'
        by_contra hc
        rw [Bool.not_eq_false] at hc
        have h2 := (hsg j).mpr (Or.inl hc)
        rw [this] at h2
        exact absurd h2 (by simp)
    · intro j
      rw [G2 j, hsg j, List.mem_cons]
      tauto
    · intro hwf
      exact WF_dmb fuel _ _ _ _ _ _ _ hp (WF_setGuestbook t i hwf)

theorem mb_fold (s : VState) :
    ∀ (L : List Nat) (t : VState) (es : List Nat),
      WF t → es.Nodup →
      (∀ j ∈ es, (s.businfo j).guestbook = false) →
      (∀ j, (t.businfo j).guestbook = true ↔ ((s.businfo j).guestbook = true ∨ j ∈ es)) →
      (∀ i ∈ L, i < 256) →
      ∃ t' es', L.foldl mbStep (some (t, es)) = some (t', es') ∧
        WF t' ∧ es'.Nodup ∧ (∀ j ∈ es', (s.businfo j).guestbook = false) ∧
        (∀ j, (t'.businfo j).guestbook = true ↔
          ((s.businfo j).guestbook = true ∨ j ∈ es')) := by
  intro L
  induction L with
  | nil =>
    intro t es hwf hnd hunv hiff _
    exact ⟨t, es, rfl, hwf, hnd, hunv, hiff⟩
  | cons i L ihL =>
    intro t es hwf hnd hunv hiff hL
    rw [List.foldl_cons]
    by_cases hcond : ((t.businfo i).exist && !(t.businfo i).guestbook) = true
    · have hgi : (t.businfo i).guestbook = false := by
        have := (Bool.and_eq_true _ _).mp hcond
        rw [Bool.not_eq_true'] at this
        exact this.2
      have htot := dmbEnter_total t i hwf (hL i (by simp))
      obtain ⟨p, hp⟩ := Option.isSome_iff_exists.mp htot
      obtain ⟨t2, es2⟩ := p
      have hstep : mbStep (some (t, es)) i = some (t2, es ++ es2) := by
        simp only [mbStep]
        rw [if_pos hcond, hp]
      rw [hstep]
      obtain ⟨snd, sunv, siff, swf⟩ := dmbEnter_spec (fuelFor t) t i 0 255 t2 es2 hp hgi
      refine ihL t2 (es ++ es2) (swf hwf) ?_ ?_ ?_ (fun x hx => hL x (by simp [hx]))
      · refine List.Nodup.append hnd snd ?_
        intro a ha hb
        have h1 := (hiff a).mpr (Or.inr ha)
        have h2 := sunv a hb
        rw [h1] at h2
        exact absurd h2 (by simp)
      · intro j hj
        rcases List.mem_append.mp hj with hj1 | hj2
        · exact hunv j hj1
        · have h1 := sunv j hj2
          by_contra hc
          rw [Bool.not_eq_false] at hc
          have h2 := (hiff j).mpr (Or.inl hc)
          rw [h1] at h2
          exact absurd h2 (by simp)
      · intro j
        rw [siff j, hiff j, List.mem_append]
        exact or_assoc
    · have hstep : mbStep (some (t, es)) i = some (t, es) := by
        simp only [mbStep]
        rw [if_neg hcond]
      rw [hstep]
      exact ihL t es hwf hnd hunv hiff (fun x hx => hL x (by simp [hx]))

/-- Per-claim behaviour of the claim-processing loop, for a bus whose
guestbook flag is already set (as `do_map_bridges` sets it on entry):
claims before `ci` are untouched; for every claim processed, its data is
unchanged, its final tag is overlap (1), crossing (2) or its initial tag,
a fresh crossing tag implies the claim's range left the window, a fresh
overlap tag implies its target bus ends up visited, an unchanged
(fresh, untagged) tag implies the claim was recursed into: its range lies
inside the window, its target was unvisited and is now visited and
recorded as entered via this very claim, and a target already visited
when the loop started is always tagged overlap. -/
theorem dmb_claims (fuel : Nat) :
    ∀ (s : VState) (bus ci mn mx : Nat) (s' : VState) (es : List Nat),
      dmb fuel s bus ci mn mx = some (s', es) →
      (s.businfo bus).guestbook = true →
      (∀ k, k < ci → claimAt s' bus k = claimAt s bus k) ∧
      (∀ k, ci ≤ k → k < (s.businfo bus).bridges.length →
        ((claimAt s' bus k).first = (claimAt s bus k).first ∧
         (claimAt s' bus k).last = (claimAt s bus k).last) ∧
        ((claimAt s' bus k).bug = 1 ∨ (claimAt s' bus k).bug = 2 ∨
         (claimAt s' bus k).bug = (claimAt s bus k).bug) ∧
        ((claimAt s' bus k).bug = 2 → (claimAt s bus k).bug ≠ 2 →
          ((claimAt s bus k).first < mn ∨ mx < (claimAt s bus k).last)) ∧
        ((claimAt s' bus k).bug = 1 → (claimAt s bus k).bug ≠ 1 →
          (s'.businfo (claimAt s bus k).first).guestbook = true) ∧
        ((claimAt s' bus k).bug = (claimAt s bus k).bug →
          (claimAt s bus k).bug ≠ 1 → (claimAt s bus k).bug ≠ 2 →
          mn ≤ (claimAt s bus k).first ∧ (claimAt s bus k).last ≤ mx ∧
          (s.businfo (claimAt s bus k).first).guestbook = false ∧
          (s'.businfo (claimAt s bus k).first).guestbook = true ∧
          (claimAt s bus k).first ∈ es ∧
          (s'.businfo (claimAt s bus k).first).via = some (bus, k)) ∧
        ((s.businfo (claimAt s bus k).first).guestbook = true →
          (claimAt s' bus k).bug = 1)) := by
  induction fuel with
  | zero =>
    intro s bus ci mn mx s' es h _
    exact absurd h (by rw [dmb]; simp)
  | succ f ih =>
    intro s bus ci mn mx s' es h hg
    rw [dmb] at h
    by_cases hci : ci < (s.businfo bus).bridges.length
    · rw [if_pos hci] at h
      by_cases hov : (s.businfo (claimAt s bus ci).first).guestbook = true
      · rw [if_pos hov] at h
        have hgmid : ((setBug s bus ci 1).businfo bus).guestbook = true := by
          rwa [sb_guestbook]
        obtain ⟨p, q⟩ := ih _ _ _ _ _ _ _ h hgmid
        obtain ⟨G1, G2, G3, G4, G5, G6⟩ := dmb_spec f _ _ _ _ _ _ _ h
        have hmid_ne : ∀ k, k ≠ ci →
            claimAt (setBug s bus ci 1) bus k = claimAt s bus k :=
          fun k hk => sb_getD_ne s bus ci 1 k hk
        have hmid_eq : claimAt (setBug s bus ci 1) bus ci =
            { claimAt s bus ci with bug := 1 } := sb_getD_eq s bus ci 1 hci
        have hlen : ((setBug s bus ci 1).businfo bus).bridges.length =
            (s.businfo bus).bridges.length := by
          rw [sb_bridges_eq]
          simp
        constructor
        · intro k hk
          rw [p k (by omega), hmid_ne k (by omega)]
        · intro k hk1 hk2
          by_cases hkc : k = ci
          · subst hkc
            have hfin : claimAt s' bus k = { claimAt s bus k with bug := 1 } := by
              rw [p k (by omega), hmid_eq]
            have hbug1 : (claimAt s' bus k).bug = 1 := by rw [hfin]
            refine ⟨⟨by rw [hfin], by rw [hfin]⟩, Or.inl hbug1, ?_, ?_, ?_, fun _ => hbug1⟩
            · intro hb2 _
              omega
            · intro _ _
              exact (G2 _).mpr (Or.inl (by rwa [sb_guestbook]))
            · intro hbeq h1 _
              rw [hbug1] at hbeq
              omega
          · obtain ⟨e1, e2, e3, e4, e5, e6⟩ := q k (by omega) (by rw [hlen]; exact hk2)
            rw [hmid_ne k hkc] at e1 e2 e3 e4 e5 e6
            refine ⟨e1, e2, e3, e4, ?_, ?_⟩
            · intro a b c
              obtain ⟨w1, w2, w3, w4, w5, w6⟩ := e5 a b c
              rw [sb_guestbook] at w3
              exact ⟨w1, w2, w3, w4, w5, w6⟩
            · intro hgt
              exact e6 (by rwa [sb_guestbook])
      · rw [if_neg hov] at h
        by_cases hcr : ((claimAt s bus ci).first < mn || mx < (claimAt s bus ci).last) = true
        · rw [if_pos hcr] at h
          have hgmid : ((setBug s bus ci 2).businfo bus).guestbook = true := by
            rwa [sb_guestbook]
          obtain ⟨p, q⟩ := ih _ _ _ _ _ _ _ h hgmid
          have hmid_ne : ∀ k, k ≠ ci →
              claimAt (setBug s bus ci 2) bus k = claimAt s bus k :=
            fun k hk => sb_getD_ne s bus ci 2 k hk
          have hmid_eq : claimAt (setBug s bus ci 2) bus ci =
              { claimAt s bus ci with bug := 2 } := sb_getD_eq s bus ci 2 hci
          have hlen : ((setBug s bus ci 2).businfo bus).bridges.length =
              (s.businfo bus).bridges.length := by
            rw [sb_bridges_eq]
            simp
          constructor
          · intro k hk
            rw [p k (by omega), hmid_ne k (by omega)]
          · intro k hk1 hk2
            by_cases hkc : k = ci
            · subst hkc
              have hfin : claimAt s' bus k = { claimAt s bus k with bug := 2 } := by
                rw [p k (by omega), hmid_eq]
              have hbug2 : (claimAt s' bus k).bug = 2 := by rw [hfin]
              refine ⟨⟨by rw [hfin], by rw [hfin]⟩, Or.inr (Or.inl hbug2), ?_, ?_, ?_, ?_⟩
              · intro _ _
                simp only [Bool.or_eq_true, decide_eq_true_eq] at hcr
                exact hcr
              · intro hb1 _
                omega
              · intro hbeq h1 h2
                rw [hbug2] at hbeq
                omega
              · intro hgt
                exact absurd hgt hov
            · obtain ⟨e1, e2, e3, e4, e5, e6⟩ := q k (by omega) (by rw [hlen]; exact hk2)
              rw [hmid_ne k hkc] at e1 e2 e3 e4 e5 e6
              refine ⟨e1, e2, e3, e4, ?_, ?_⟩
              · intro a b c
                obtain ⟨w1, w2, w3, w4, w5, w6⟩ := e5 a b c
                rw [sb_guestbook] at w3
                exact ⟨w1, w2, w3, w4, w5, w6⟩
              · intro hgt
                exact e6 (by rwa [sb_guestbook])
        · rw [if_neg hcr] at h
          cases hinner : dmb f
              (setGuestbook (setVia s (claimAt s bus ci).first (bus, ci))
                (claimAt s bus ci).first)
              (claimAt s bus ci).first 0 (claimAt s bus ci).first
              (claimAt s bus ci).last with
          | none =>
            rw [hinner] at h
            simp at h
          | some p1 =>
            obtain ⟨s1, es1⟩ := p1
            rw [hinner] at h
            dsimp only at h
            cases hcont : dmb f s1 bus (ci + 1) mn mx with
            | none =>
              rw [hcont] at h
              simp at h
            | some p2 =>
              obtain ⟨s2, es2⟩ := p2
              rw [hcont] at h
              dsimp only at h
              simp only [Option.some.injEq, Prod.mk.injEq] at h
              obtain ⟨hs, hes⟩ := h
              subst hs
              subst hes
              have hovf : (s.businfo (claimAt s bus ci).first).guestbook = false := by
                rw [Bool.not_eq_true] at hov
                exact hov
              have hbusne : bus ≠ (claimAt s bus ci).first := by
                intro hc
                rw [← hc] at hovf
                rw [hg] at hovf
                exact absurd hovf (by simp)
              obtain ⟨I1, I2, I3, I4, I5, I6⟩ := dmb_spec f _ _ _ _ _ _ _ hinner
              obtain ⟨C1, C2, C3, C4, C5, C6⟩ := dmb_spec f _ _ _ _ _ _ _ hcont
              have hsvgbus : (((setGuestbook
                  (setVia s (claimAt s bus ci).first (bus, ci))
                  (claimAt s bus ci).first).businfo bus).guestbook = true) :=
                (enter_guestbook s _ _ bus).mpr (Or.inl hg)
              have hbr1 : (s1.businfo bus).bridges = (s.businfo bus).bridges := by
                rw [I6 bus hbusne hsvgbus, enter_bridges]
              have hca : ∀ k, claimAt s1 bus k = claimAt s bus k := by
                intro k
                rw [claimAt, claimAt, hbr1]
              have hg1 : (s1.businfo bus).guestbook = true :=
                (I2 bus).mpr (Or.inl hsvgbus)
              obtain ⟨p, q⟩ := ih _ _ _ _ _ _ _ hcont hg1
              have hmono : ∀ j, (s.businfo j).guestbook = true →
                  (s1.businfo j).guestbook = true := fun j hj =>
                (I2 j).mpr (Or.inl ((enter_guestbook s _ _ j).mpr (Or.inl hj)))
              have hsvbf : (((setGuestbook
                  (setVia s (claimAt s bus ci).first (bus, ci))
                  (claimAt s bus ci).first).businfo
                  (claimAt s bus ci).first).guestbook = true) :=
                (enter_guestbook s _ _ _).mpr (Or.inr rfl)
              have hg1bf : (s1.businfo (claimAt s bus ci).first).guestbook = true :=
                (I2 _).mpr (Or.inl hsvbf)
              have hg2bf : (s2.businfo (claimAt s bus ci).first).guestbook = true :=
                (C2 _).mpr (Or.inl hg1bf)
              constructor
              · intro k hk
                rw [p k (by omega), hca k]
              · intro k hk1 hk2
                by_cases hkc : k = ci
                · subst hkc
                  have hfin : claimAt s2 bus k = claimAt s bus k := by
                    rw [p k (by omega), hca k]
                  simp only [Bool.or_eq_true, decide_eq_true_eq, not_or] at hcr
                  refine ⟨⟨by rw [hfin], by rw [hfin]⟩,
                    Or.inr (Or.inr (by rw [hfin])), ?_, ?_, ?_, ?_⟩
                  · intro hb2 hne2
                    rw [hfin] at hb2
                    exact absurd hb2 hne2
                  · intro hb1 hne1
                    rw [hfin] at hb1
                    exact absurd hb1 hne1
                  · intro _ _ _
                    refine ⟨by omega, by omega, hovf, hg2bf,
                      List.mem_cons_self _ _, ?_⟩
                    have hv0 : (((setGuestbook
                        (setVia s (claimAt s bus k).first (bus, k))
                        (claimAt s bus k).first).businfo
                        (claimAt s bus k).first).via = some (bus, k)) := by
                      rw [enter_via, if_pos rfl]
                    rw [C5 _ hg1bf, I5 _ hsvbf, hv0]
                  · intro hgt
                    exact absurd hgt hov
                · obtain ⟨e1, e2, e3, e4, e5, e6⟩ :=
                    q k (by omega) (by rw [hbr1]; exact hk2)
                  rw [hca k] at e1 e2 e3 e4 e5 e6
                  refine ⟨e1, e2, e3, e4, ?_, ?_⟩
                  · intro a b c
                    obtain ⟨w1, w2, w3, w4, w5, w6⟩ := e5 a b c
                    have hsg : (s.businfo (claimAt s bus k).first).guestbook = false := by
                      by_contra hc
                      rw [Bool.not_eq_false] at hc
                      rw [hmono _ hc] at w3
                      exact absurd w3 (by simp)
                    refine ⟨w1, w2, hsg, w4, ?_, w6⟩
                    exact List.mem_cons.mpr (Or.inr (List.mem_append.mpr (Or.inr w5)))
                  · intro hgt
                    exact e6 (hmono _ hgt)
    · rw [if_neg hci] at h
      simp only [Option.some.injEq, Prod.mk.injEq] at h
      obtain ⟨hs, hes⟩ := h
      subst hs
      subst hes
      refine ⟨fun k _ => rfl, fun k hk1 hk2 => absurd (by omega : ci < (s.businfo bus).bridges.length) hci⟩

/-- C7: the validator's guarded depth-first walk terminates on every
input — for any `bus_info` table whose claims' target bus numbers are
bytes (which the C type `byte first` guarantees), the whole validation
pass `map_bridges` completes — and the entered-bus trace has no
duplicates: every entered bus was unvisited before the pass and the final
guestbook is the initial one plus exactly the entered buses, so each
entered bus has its guestbook flag set exactly once and no bus is entered
twice. -/
theorem c7_validator_terminates (s : VState) (hwf : WF s) :
    ∃ s' es, map_bridges s = some (s', es) ∧ es.Nodup ∧
      (∀ j ∈ es, (s.businfo j).guestbook = false) ∧
      (∀ j, (s'.businfo j).guestbook = true ↔
        ((s.businfo j).guestbook = true ∨ j ∈ es)) := by
  obtain ⟨t', es', hfold, hwf', hnd, hunv, hiff⟩ :=
    mb_fold s (List.range 256) s [] hwf List.nodup_nil (by simp) (fun j => by simp)
      (fun i hi => List.mem_range.mp hi)
  exact ⟨t', es', hfold, hnd, hunv, hiff⟩

/-- C7 witness: the termination theorem applied to the cyclic table. -/
theorem c7_validator_terminates_witness :
    (map_bridges sCyc).isSome = true := by
  have hwf : WF sCyc := by
    intro j b hb
    by_cases h0 : j = 0
    · subst h0
      simp [sCyc] at hb
      subst hb
      decide
    · by_cases h1 : j = 1
      · subst h1
        simp [sCyc] at hb
        subst hb
        decide
      · simp [sCyc, h0, h1] at hb
  obtain ⟨s', es, heq, _, _, _⟩ := c7_validator_terminates sCyc hwf
  rw [heq]
  rfl

/-- C3: per-claim behaviour of `do_map_bridges` on the bus it enters.
For every claim `(first, last)` of the entered bus: its recorded data is
never modified; its final tag is overlap (1), crossing (2), or its initial
value; a fresh crossing tag means the claim's range left the granted
window (`first < min` or `last > max`); a fresh overlap tag means the
target bus ends up visited; an unchanged (initially clean) tag means the
claim was recursed into — its range lies inside the window, its target
bus was unvisited, is entered (it appears in the entered trace, ends up
visited) and this very claim is recorded as the target's entry bridge;
and a claim whose target was already visited when the walk entered the
bus (or targets the entered bus itself) is tagged overlap. -/
theorem c3_validator_claims (fuel : Nat) (s : VState) (bus mn mx : Nat)
    (s' : VState) (es : List Nat)
    (h : dmbEnter fuel s bus mn mx = some (s', es)) :
    ∀ k, k < (s.businfo bus).bridges.length →
      ((claimAt s' bus k).first = (claimAt s bus k).first ∧
       (claimAt s' bus k).last = (claimAt s bus k).last) ∧
      ((claimAt s' bus k).bug = 1 ∨ (claimAt s' bus k).bug = 2 ∨
       (claimAt s' bus k).bug = (claimAt s bus k).bug) ∧
      ((claimAt s' bus k).bug = 2 → (claimAt s bus k).bug ≠ 2 →
        ((claimAt s bus k).first < mn ∨ mx < (claimAt s bus k).last)) ∧
      ((claimAt s' bus k).bug = 1 → (claimAt s bus k).bug ≠ 1 →
        (s'.businfo (claimAt s bus k).first).guestbook = true) ∧
      ((claimAt s' bus k).bug = (claimAt s bus k).bug →
        (claimAt s bus k).bug ≠ 1 → (claimAt s bus k).bug ≠ 2 →
        mn ≤ (claimAt s bus k).first ∧ (claimAt s bus k).last ≤ mx ∧
        (claimAt s bus k).first ≠ bus ∧
        (s.businfo (claimAt s bus k).first).guestbook = false ∧
        (s'.businfo (claimAt s bus k).first).guestbook = true ∧
        (claimAt s bus k).first ∈ es ∧
        (s'.businfo (claimAt s bus k).first).via = some (bus, k)) ∧
      (((s.businfo (claimAt s bus k).first).guestbook = true ∨
          (claimAt s bus k).first = bus) →
        (claimAt s' bus k).bug = 1) := by
  rw [dmbEnter] at h
  cases hp : dmb fuel (setGuestbook s bus) bus 0 mn mx with
  | none =>
    rw [hp] at h
    simp at h
  | some p =>
    obtain ⟨t2, esT⟩ := p
    rw [hp] at h
    dsimp only at h
    simp only [Option.some.injEq, Prod.mk.injEq] at h
    obtain ⟨ht, hes⟩ := h
    subst ht
    subst hes
    have hg : ((setGuestbook s bus).businfo bus).guestbook = true := by
      rw [sg_guestbook]
      simp
    obtain ⟨_, q⟩ := dmb_claims fuel _ _ _ _ _ _ _ hp hg
    intro k hk
    have hca : ∀ k', claimAt (setGuestbook s bus) bus k' = claimAt s bus k' := by
      intro k'
      rw [claimAt, claimAt, sg_bridges]
    have hk' : k < ((setGuestbook s bus).businfo bus).bridges.length := by
      rw [sg_bridges]
      exact hk
    obtain ⟨e1, e2, e3, e4, e5, e6⟩ := q k (Nat.zero_le k) hk'
    rw [hca k] at e1 e2 e3 e4 e5 e6
    refine ⟨e1, e2, e3, e4, ?_, ?_⟩
    · intro a b c
      obtain ⟨w1, w2, w3, w4, w5, w6⟩ := e5 a b c
      have htne : (claimAt s bus k).first ≠ bus := by
        intro hc
        rw [hc, sg_guestbook] at w3
        simp at w3
      have hsf : (s.businfo (claimAt s bus k).first).guestbook = false := by
        rw [sg_guestbook] at w3
        exact (Bool.or_eq_false_iff.mp w3).1
      exact ⟨w1, w2, htne, hsf, w4, List.mem_cons.mpr (Or.inr w5), w6⟩
    · intro hor
      refine e6 ?_
      rw [sg_guestbook]
      rcases hor with h1 | h2
      · rw [h1]
        simp
      · rw [h2]
        simp

/-- C3 witness: running `do_map_bridges(0, 0, 255)` on the scenario table,
the first claim recurses into bus 5 (tag stays 0, entry recorded), the
second claim targeting bus 5 is tagged overlap (1), bus 5's own escaping
claim is tagged crossing (2), bus 5 is entered exactly once, and the entry
bridge of bus 5 is the first claim of bus 0 — the last fact obtained by
applying the per-claim theorem. -/
theorem c3_validator_claims_witness :
    bugOf (dmbEnter 20 sVal 0 0 255) 0 0 = 0 ∧
      bugOf (dmbEnter 20 sVal 0 0 255) 0 1 = 1 ∧
      bugOf (dmbEnter 20 sVal 0 0 255) 5 0 = 2 ∧
      enteredOf (dmbEnter 20 sVal 0 0 255) = [0, 5] ∧
      viaOf (dmbEnter 20 sVal 0 0 255) 5 = some (0, 0) := by
  refine ⟨by decide, by decide, by decide, by decide, ?_⟩
  obtain ⟨p, hp⟩ := Option.isSome_iff_exists.mp
    (show (dmbEnter 20 sVal 0 0 255).isSome = true by decide)
  obtain ⟨t, es⟩ := p
  have hb0 : (claimAt t 0 0).bug = 0 := by
    have h1 : bugOf (dmbEnter 20 sVal 0 0 255) 0 0 = bugOf (some (t, es)) 0 0 := by
      rw [hp]
    have h2 : bugOf (dmbEnter 20 sVal 0 0 255) 0 0 = 0 := by decide
    rw [h2] at h1
    exact h1.symm
  obtain ⟨_, _, _, _, _, _, hvia⟩ :=
    (c3_validator_claims 20 sVal 0 0 255 t es hp 0 (by decide)).2.2.2.2.1
      (by rw [hb0]; decide) (by decide) (by decide)
  have hproj : viaOf (dmbEnter 20 sVal 0 0 255) 5 = (t.businfo 5).via := by
    rw [hp]
    rfl
  rw [hproj]
  exact hvia

theorem flatMap_congr_aux {α β : Type} (l : List α) (g g' : α → List β)
    (h : ∀ x ∈ l, g x = g' x) : l.flatMap g = l.flatMap g' := by
  induction l with
  | nil => rfl
  | cons a l ih =>
    rw [List.flatMap_cons, List.flatMap_cons, h a (by simp),
      ih (fun x hx => h x (by simp [hx]))]

theorem any_congr_aux {α : Type} (l : List α) (p p' : α → Bool)
    (h : ∀ x ∈ l, p x = p' x) : l.any p = l.any p' := by
  induction l with
  | nil => rfl
  | cons a l ih =>
    rw [List.any_cons, List.any_cons, h a (by simp),
      ih (fun x hx => h x (by simp [hx]))]

/-- C10: in bus-mapping mode every probed address lies in domain 0 — the
probe loop constructs `pci_get_dev(pacc, 0, bus, dev, func)` with the
domain hard-coded to 0 — and consequently the outcome of probing a bus
(its probed addresses, existence flag and recorded bridge claims) depends
only on the hardware oracle's values at domain-0 addresses: functions in
non-zero domains are never discovered and never contribute to Probe
Records. -/
theorem c10_domain_zero (hw : Nat × Nat × Nat × Nat → Nat → Nat)
    (fmatch : Nat × Nat × Nat × Nat → Bool) (fs ff fb : Option Nat) :
    (∀ a ∈ map_the_bus_probed hw fmatch fs ff fb, a.1 = 0) ∧
    (∀ hw' : Nat × Nat × Nat × Nat → Nat → Nat,
      (∀ b d f r, hw (0, b, d, f) r = hw' (0, b, d, f) r) →
      ∀ bus, do_map_bus hw fmatch fs ff bus = do_map_bus hw' fmatch fs ff bus) := by
  have hmem : ∀ bus, ∀ a ∈ (do_map_bus hw fmatch fs ff bus).probed, a.1 = 0 := by
    intro bus a ha
    rw [do_map_bus] at ha
    obtain ⟨dev, _, hmem2⟩ := List.mem_flatMap.mp ha
    obtain ⟨f, _, rfl⟩ := List.mem_map.mp hmem2
    rfl
  constructor
  · intro a ha
    cases fb with
    | some b =>
      simp only [map_the_bus_probed] at ha
      exact hmem b a ha
    | none =>
      simp only [map_the_bus_probed] at ha
      obtain ⟨b, _, hb⟩ := List.mem_flatMap.mp ha
      exact hmem b a hb
  · intro hw' hag bus
    have hv : ∀ b d f, vendorAt hw (0, b, d, f) = vendorAt hw' (0, b, d, f) := by
      intro b d f
      rw [vendorAt, vendorAt, hag b d f 0, hag b d f 1]
    have hmf : ∀ b d f, mfBit hw (0, b, d, f) = mfBit hw' (0, b, d, f) := by
      intro b d f
      rw [mfBit, mfBit, hag b d f PCI_HEADER_TYPE]
    have hdev : ∀ b d f, deviceAt hw 0 b d f = deviceAt hw' 0 b d f := by
      intro b d f
      have hmap128 : (List.range 128).map (fun i => hw (0, b, d, f) i) =
          (List.range 128).map (fun i => hw' (0, b, d, f) i) :=
        List.map_congr_left (fun i _ => hag b d f i)
      have hmap64 : (List.range 64).map (fun i => hw (0, b, d, f) i) =
          (List.range 64).map (fun i => hw' (0, b, d, f) i) :=
        List.map_congr_left (fun i _ => hag b d f i)
      rw [deviceAt, deviceAt, hag b d f PCI_HEADER_TYPE, hmap64, hmap128]
    have hfun : ∀ d, funcsFor hw ff bus d = funcsFor hw' ff bus d := by
      intro d
      rw [funcsFor, funcsFor, hv bus d 0, hmf bus d 0]
    have hrec : ∀ d f, recordsFor hw fmatch bus d f = recordsFor hw' fmatch bus d f := by
      intro d f
      rw [recordsFor, recordsFor, hv bus d f, hdev bus d f]
    rw [do_map_bus, do_map_bus]
    congr 1
    · refine flatMap_congr_aux _ _ _ (fun dev _ => ?_)
      rw [hfun dev]
    · refine any_congr_aux _ _ _ (fun dev _ => ?_)
      rw [hfun dev]
      refine any_congr_aux _ _ _ (fun f _ => ?_)
      rw [hv bus dev f]
    · refine congrArg List.reverse ?_
      refine flatMap_congr_aux _ _ _ (fun dev _ => ?_)
      rw [hfun dev]
      refine flatMap_congr_aux _ _ _ (fun f _ => ?_)
      rw [hrec dev f]

/-- C10 witness: two oracles that differ everywhere outside domain 0
produce identical probe outcomes, and a concretely probed address has
domain 0. -/
theorem c10_domain_zero_witness :
    do_map_bus hwA (fun _ => true) none none 3 =
        do_map_bus hwB (fun _ => true) none none 3 ∧
      ((0, 3, 0, 0) : Nat × Nat × Nat × Nat).1 = 0 := by
  have hag : ∀ b d f r, hwA (0, b, d, f) r = hwB (0, b, d, f) r := by
    intro b d f r
    simp [hwA, hwB]
  refine ⟨(c10_domain_zero hwA (fun _ => true) none none (some 3)).2 hwB hag 3, ?_⟩
  exact (c10_domain_zero hwA (fun _ => true) none none (some 3)).1 (0, 3, 0, 0) (by decide)

theorem get_conf_byte_lt (d : Device) (pos : Nat) : get_conf_byte d pos < 256 :=
  Nat.mod_lt _ (by norm_num)

theorem mkBridge_bounds (d : Device) :
    (mkBridge d).primary < 256 ∧ (mkBridge d).secondary < 256 ∧
      (mkBridge d).subordinate < 256 := by
  rw [mkBridge]
  split <;> exact ⟨get_conf_byte_lt _ _, get_conf_byte_lt _ _, get_conf_byte_lt _ _⟩

theorem chain_getD_zero (registry : List Device) :
    (chain registry).getD 0 host_bridge = host_bridge := rfl

theorem chain_getD_real (registry : List Device) (bi : Nat) (h1 : 0 < bi)
    (h2 : bi < (chain registry).length) :
    ∃ d, (chain registry).getD bi host_bridge = mkBridge d := by
  obtain ⟨k, rfl⟩ : ∃ k, bi = k + 1 := ⟨bi - 1, by omega⟩
  have hk : k < ((registry.filter isBridgeDev).map mkBridge).length := by
    have : (chain registry).length = ((registry.filter isBridgeDev).map mkBridge).length + 1 :=
      rfl
    omega
  have hgd : (chain registry).getD (k + 1) host_bridge =
      ((registry.filter isBridgeDev).map mkBridge).getD k host_bridge := rfl
  rw [hgd, List.getD_eq_getElem _ _ hk]
  have hm : ((registry.filter isBridgeDev).map mkBridge)[k] ∈
      (registry.filter isBridgeDev).map mkBridge := List.getElem_mem hk
  obtain ⟨d, _, hd⟩ := List.mem_map.mp hm
  exact ⟨d, hd.symm⟩

theorem cand_host (registry : List Device) (bi : Nat) (h1 : 0 < bi)
    (h2 : bi < (chain registry).length) :
    cand (chain registry) bi 0 = true := by
  obtain ⟨d, hd⟩ := chain_getD_real registry bi h1 h2
  have hp : ((chain registry).getD bi host_bridge).primary < 256 := by
    rw [hd]; exact (mkBridge_bounds d).1
  have hsub : host_bridge.subordinate = 2 ^ 32 - 1 := rfl
  rw [cand, chain_getD_zero]
  have f1 : (0 != bi) = true := bne_iff_ne.mpr (by omega)
  have f3 : decide (host_bridge.secondary ≤
      ((chain registry).getD bi host_bridge).primary) = true :=
    decide_eq_true (Nat.zero_le _)
  have f4 : decide (((chain registry).getD bi host_bridge).primary ≤
      host_bridge.subordinate) = true :=
    decide_eq_true (by omega)
  simp only [f1, f3, f4, beq_self_eq_true, Bool.true_or, Bool.true_and, Bool.and_true]

theorem width_host (registry : List Device) : width (chain registry) 0 = 0 := by
  rw [width, chain_getD_zero]
  rfl

theorem foldl_bestStep_stay (ch : List Bridge) (bi j : Nat) (hw : width ch j = 0) :
    ∀ L : List Nat, L.foldl (bestStep ch bi) (some j) = some j := by
  intro L
  induction L with
  | nil => rfl
  | cons x L ih =>
    rw [List.foldl_cons]
    have hd : decide (width ch x < width ch j) = false := by
      rw [hw]
      exact decide_eq_false (by omega)
    have hs : bestStep ch bi (some j) x = some j := by
      simp only [bestStep, Option.elim, hd, Bool.and_false]
      rfl
    rw [hs, ih]

theorem foldl_bestStep_none (ch : List Bridge) (bi : Nat) :
    ∀ L : List Nat, (∀ k ∈ L, cand ch bi k = false) →
      L.foldl (bestStep ch bi) none = none := by
  intro L
  induction L with
  | nil => intro _; rfl
  | cons x L ih =>
    intro hL
    rw [List.foldl_cons]
    have hs : bestStep ch bi none x = none := by
      simp only [bestStep, hL x (by simp), Bool.false_and]
      rfl
    rw [hs]
    exact ih (fun k hk => hL k (by simp [hk]))

theorem foldl_bestStep_inv (ch : List Bridge) (bi : Nat) :
    ∀ (L : List Nat) (acc : Option Nat),
      (∀ a, acc = some a → cand ch bi a = true) →
      ∀ j, L.foldl (bestStep ch bi) acc = some j →
        cand ch bi j = true ∧
        (∀ a, acc = some a → width ch j ≤ width ch a) ∧
        (∀ k ∈ L, cand ch bi k = true → width ch j ≤ width ch k) := by
  intro L
  induction L with
  | nil =>
    intro acc hacc j hj
    rw [List.foldl_nil] at hj
    exact ⟨hacc j hj, fun a ha => by rw [hj] at ha; cases ha; omega, by simp⟩
  | cons x L ih =>
    intro acc hacc j hj
    rw [List.foldl_cons] at hj
    by_cases hx : (cand ch bi x &&
        acc.elim true (fun bj => decide (width ch x < width ch bj))) = true
    · have hstep : bestStep ch bi acc x = some x := by
        rw [bestStep, if_pos hx]
      rw [hstep] at hj
      have hcx : cand ch bi x = true := (Bool.and_eq_true _ _ |>.mp hx).1
      obtain ⟨hcj, hwa, hwL⟩ := ih (some x) (fun a ha => by cases ha; exact hcx) j hj
      refine ⟨hcj, ?_, ?_⟩
      · intro a ha
        subst ha
        have hmatch := (Bool.and_eq_true _ _ |>.mp hx).2
        simp only [Option.elim, decide_eq_true_eq] at hmatch
        have := hwa x rfl
        omega
      · intro k hk hck
        rcases List.mem_cons.mp hk with rfl | hk'
        · exact hwa k rfl
        · exact hwL k hk' hck
    · have hstep : bestStep ch bi acc x = acc := by
        rw [bestStep, if_neg hx]
      rw [hstep] at hj
      obtain ⟨hcj, hwa, hwL⟩ := ih acc hacc j hj
      refine ⟨hcj, hwa, ?_⟩
      intro k hk hck
      rcases List.mem_cons.mp hk with rfl | hk'
      · cases acc with
        | none =>
          exfalso
          apply hx
          simp [hck, Option.elim]
        | some a =>
          have hna : ¬(width ch k < width ch a) := by
            intro hlt
            apply hx
            simp [hck, Option.elim, hlt]
          have := hwa a rfl
          omega
      · exact hwL k hk' hck

theorem findBest_real (registry : List Device) (bi : Nat) (h1 : 0 < bi)
    (h2 : bi < (chain registry).length) :
    findBest (chain registry) bi = some 0 := by
  rw [findBest]
  obtain ⟨n, hn⟩ : ∃ n, (chain registry).length = n + 1 :=
    ⟨((registry.filter isBridgeDev).map mkBridge).length, rfl⟩
  rw [hn, List.range_succ_eq_map, List.foldl_cons]
  have hstep : bestStep (chain registry) bi none 0 = some 0 := by
    simp only [bestStep, cand_host registry bi h1 h2, Option.elim, Bool.and_true]
    rfl
  rw [hstep]
  exact foldl_bestStep_stay (chain registry) bi 0 (width_host registry) _

theorem cand_of_host_false (registry : List Device) (k : Nat) (hk : k < (chain registry).length) :
    cand (chain registry) 0 k = false := by
  rcases Nat.eq_zero_or_pos k with rfl | hpos
  · rw [cand]
    simp
  · obtain ⟨d, hd⟩ := chain_getD_real registry k hpos hk
    have hs : ((chain registry).getD k host_bridge).subordinate < 256 := by
      rw [hd]; exact (mkBridge_bounds d).2.2
    have hp : ((chain registry).getD 0 host_bridge).primary = 2 ^ 32 - 1 := by
      rw [chain_getD_zero]
      rfl
    have hlast : decide (((chain registry).getD 0 host_bridge).primary ≤
        ((chain registry).getD k host_bridge).subordinate) = false :=
      decide_eq_false (by omega)
    rw [cand, hlast, Bool.and_false]

theorem findBest_host (registry : List Device) :
    findBest (chain registry) 0 = none := by
  rw [findBest]
  refine foldl_bestStep_none (chain registry) 0 _ (fun k hk => ?_)
  exact cand_of_host_false registry k (List.mem_range.mp hk)

theorem childrenOf_real (registry : List Device) (pi : Nat) (hpi : 0 < pi) :
    childrenOf (chain registry) pi = [] := by
  rw [childrenOf]
  have : ((List.range (chain registry).length).filter
      (fun bi => findBest (chain registry) bi == some pi)) = [] := by
    rw [List.filter_eq_nil_iff]
    intro k hk
    rcases Nat.eq_zero_or_pos k with rfl | hpos
    · rw [findBest_host]
      simp
    · rw [findBest_real registry k hpos (List.mem_range.mp hk)]
      simp
      omega
  rw [this]
  rfl

/-- C2: for every bridge `B` of the passive build (every non-host chain
position), the host root is always a matching candidate (so the
no-candidate fallback never fires), and the parent `grow_tree` selects is
a matching candidate whose width `C.subordinate - C.primary` (computed in
C unsigned arithmetic) is minimal among all matching candidates. -/
theorem c2_parent_assignment (registry : List Device) (bi : Nat)
    (h1 : 0 < bi) (h2 : bi < (chain registry).length) :
    cand (chain registry) bi 0 = true ∧
    ∃ pj, findBest (chain registry) bi = some pj ∧
      cand (chain registry) bi pj = true ∧
      ∀ cj, cj < (chain registry).length → cand (chain registry) bi cj = true →
        width (chain registry) pj ≤ width (chain registry) cj := by
  refine ⟨cand_host registry bi h1 h2, 0, findBest_real registry bi h1 h2,
    cand_host registry bi h1 h2, ?_⟩
  intro cj _ _
  rw [width_host]
  exact Nat.zero_le _

/-- C2 witness: the parent-assignment theorem applied to the concrete
three-bridge registry. -/
theorem c2_parent_assignment_witness :
    cand (chain registryC4) 3 0 = true ∧
      (findBest (chain registryC4) 3).isSome = true := by
  obtain ⟨hhost, pj, hfb, hcand, hmin⟩ :=
    c2_parent_assignment registryC4 3 (by norm_num) (by decide)
  refine ⟨hhost, ?_⟩
  rw [hfb]
  rfl

/-- C4: the tightest-interval property fails on the code.  In the
registry with bridges A = [0,255], B = [10,20] and C with primary 15,
B is a matching candidate for C and strictly tighter than A, yet
`grow_tree` selects the host root (chain position 0) as C's parent, not B
(chain position 2): the host root is itself always a matching candidate
and its width `subordinate - primary` computes to `(2^32-1) - (2^32-1) = 0`
in unsigned arithmetic, the global minimum, so every bridge is attached
directly to the host root. -/
theorem c4_tightest_interval_fails :
    cand (chain registryC4) 3 2 = true ∧
      width (chain registryC4) 2 < width (chain registryC4) 1 ∧
      width (chain registryC4) 0 = 0 ∧
      findBest (chain registryC4) 3 = some 0 ∧
      findBest (chain registryC4) 3 ≠ some 2 := by
  decide

/-- C5: for a device classified as a bridge, `grow_tree` extracts
(primary, secondary, subordinate) from the bus-number offsets of the
device's own header type: offsets 0x18/0x19/0x1a of the type-1 header for
header type "bridge", and offsets 0x18/0x19/0x1a of the type-2 header for
header type "cardbus".  (The source's two branches name the other
family's offset constants, but the two families coincide numerically, so
the extracted bytes are the appropriate ones either way.) -/
theorem c5_bridge_field_offsets (d : Device) :
    (isBridgeDev d = true → headerType d = PCI_HEADER_TYPE_BRIDGE →
      (mkBridge d).primary = get_conf_byte d PCI_PRIMARY_BUS ∧
      (mkBridge d).secondary = get_conf_byte d PCI_SECONDARY_BUS ∧
      (mkBridge d).subordinate = get_conf_byte d PCI_SUBORDINATE_BUS) ∧
    (isBridgeDev d = true → headerType d = PCI_HEADER_TYPE_CARDBUS →
      (mkBridge d).primary = get_conf_byte d PCI_CB_PRIMARY_BUS ∧
      (mkBridge d).secondary = get_conf_byte d PCI_CB_CARD_BUS ∧
      (mkBridge d).subordinate = get_conf_byte d PCI_CB_SUBORDINATE_BUS) := by
  constructor
  · intro _ hht
    rw [mkBridge, if_pos hht]
    exact ⟨rfl, rfl, rfl⟩
  · intro _ hht
    have hne : ¬ headerType d = PCI_HEADER_TYPE_BRIDGE := by
      rw [hht]
      decide
    rw [mkBridge, if_neg hne]
    exact ⟨rfl, rfl, rfl⟩

/-- C5 witness: the offset theorem applied to one concrete type-1 bridge
and one concrete CardBus bridge. -/
theorem c5_bridge_field_offsets_witness :
    isBridgeDev (devBridge 0 0 0 1 5) = true ∧
      isBridgeDev (devCardbus 0 0 0 2 6) = true ∧
      (mkBridge (devBridge 0 0 0 1 5)).secondary =
        get_conf_byte (devBridge 0 0 0 1 5) PCI_SECONDARY_BUS ∧
      (mkBridge (devCardbus 0 0 0 2 6)).secondary =
        get_conf_byte (devCardbus 0 0 0 2 6) PCI_CB_CARD_BUS := by
  refine ⟨by decide, by decide, ?_, ?_⟩
  · exact ((c5_bridge_field_offsets (devBridge 0 0 0 1 5)).1 (by decide) (by decide)).2.1
  · exact ((c5_bridge_field_offsets (devCardbus 0 0 0 2 6)).2 (by decide) (by decide)).2.1

/-- C8, counterexample: the passive Topology Builder does not clamp a
bridge whose secondary exceeds its subordinate.  For a bridge reporting
secondary = 30, subordinate = 20, `grow_tree` keeps the inverted range
(subordinate stays 20, not 30), no flag exists, and a device on bus 30 is
consequently placed on a fresh bus at the host root rather than under the
bridge (whose own materialized bus 30 stays empty) — under the claimed
clamped range [30,30] it would have been placed under the bridge. -/
theorem c8_counterexample :
    (mkBridge (devBridge 0 0 0 30 20)).secondary = 30 ∧
      (mkBridge (devBridge 0 0 0 30 20)).subordinate = 20 ∧
      (mkBridge (devBridge 0 0 0 30 20)).subordinate ≠
        (mkBridge (devBridge 0 0 0 30 20)).secondary ∧
      ((grow_tree [devBridge 0 0 0 30 20, devPlain 30 0]).2.getD 1 []) =
        [⟨0, 30, []⟩] ∧
      ((grow_tree [devBridge 0 0 0 30 20, devPlain 30 0]).2.getD 0 []) =
        [⟨0, 30, [devPlain 30 0]⟩, ⟨0, 0, [devBridge 0 0 0 30 20]⟩] := by
  decide

/-- C8 (amended): the clamp-and-flag behaviour belongs to the active
Bus-Mapping Prober's claim recording (`map_bridge`), not the passive
builder: a recorded claim whose `first` exceeds its `last` is accepted
with `last` clamped to `first` and flagged by the range warning, and a
well-ordered claim is recorded unchanged and unflagged; the passive
builder (`grow_tree`) accepts a bridge with secondary > subordinate
entirely unchanged — its record always carries the raw secondary and
subordinate bytes. -/
theorem c8_clamp_in_prober (d : Device) (np ns nl : Nat) :
    (get_conf_byte d nl < get_conf_byte d ns →
      (map_bridge d np ns nl).entry.first = get_conf_byte d ns ∧
      (map_bridge d np ns nl).entry.last = (map_bridge d np ns nl).entry.first ∧
      (map_bridge d np ns nl).warnRange = true) ∧
    (get_conf_byte d ns ≤ get_conf_byte d nl →
      (map_bridge d np ns nl).entry.first = get_conf_byte d ns ∧
      (map_bridge d np ns nl).entry.last = get_conf_byte d nl ∧
      (map_bridge d np ns nl).warnRange = false) ∧
    ((mkBridge d).secondary = get_conf_byte d PCI_SECONDARY_BUS ∧
      (mkBridge d).subordinate = get_conf_byte d PCI_SUBORDINATE_BUS) := by
  refine ⟨?_, ?_, ?_⟩
  · intro h
    refine ⟨rfl, ?_, decide_eq_true h⟩
    show (if get_conf_byte d nl < get_conf_byte d ns then get_conf_byte d ns
        else get_conf_byte d nl) = get_conf_byte d ns
    rw [if_pos h]
  · intro h
    have hn : ¬ get_conf_byte d nl < get_conf_byte d ns := by omega
    refine ⟨rfl, ?_, decide_eq_false hn⟩
    show (if get_conf_byte d nl < get_conf_byte d ns then get_conf_byte d ns
        else get_conf_byte d nl) = get_conf_byte d nl
    rw [if_neg hn]
  · rw [mkBridge]
    split
    · exact ⟨rfl, rfl⟩
    · exact ⟨rfl, rfl⟩

/-- C8 witness: the clamp theorem applied to a recorded claim reporting
first = 30, last = 20 (clamped to [30,30] and flagged) and to the passive
record of the same bridge (kept inverted, [30,20]). -/
theorem c8_clamp_in_prober_witness :
    get_conf_byte (devBridge 0 0 0 30 20) PCI_SUBORDINATE_BUS <
        get_conf_byte (devBridge 0 0 0 30 20) PCI_SECONDARY_BUS ∧
      (map_bridge (devBridge 0 0 0 30 20) PCI_PRIMARY_BUS PCI_SECONDARY_BUS
          PCI_SUBORDINATE_BUS).entry.last =
        (map_bridge (devBridge 0 0 0 30 20) PCI_PRIMARY_BUS PCI_SECONDARY_BUS
          PCI_SUBORDINATE_BUS).entry.first ∧
      (map_bridge (devBridge 0 0 0 30 20) PCI_PRIMARY_BUS PCI_SECONDARY_BUS
          PCI_SUBORDINATE_BUS).warnRange = true ∧
      (mkBridge (devBridge 0 0 0 30 20)).subordinate =
        get_conf_byte (devBridge 0 0 0 30 20) PCI_SUBORDINATE_BUS := by
  obtain ⟨h1, h2, h3⟩ :=
    (c8_clamp_in_prober (devBridge 0 0 0 30 20) PCI_PRIMARY_BUS PCI_SECONDARY_BUS
      PCI_SUBORDINATE_BUS).1 (by decide)
  refine ⟨by decide, h2, h3, ?_⟩
  exact (c8_clamp_in_prober (devBridge 0 0 0 30 20) PCI_PRIMARY_BUS PCI_SECONDARY_BUS
    PCI_SUBORDINATE_BUS).2.2.2

theorem getD_set_self {α : Type} (l : List α) :
    ∀ (i : Nat) (a d : α), i < l.length → (l.set i a).getD i d = a := by
  induction l with
  | nil => intro i a d h; simp at h
  | cons x l ih =>
    intro i a d h
    cases i with
    | zero => rfl
    | succ i => exact ih i a d (by simpa using h)

theorem getD_set_other {α : Type} (l : List α) :
    ∀ (i j : Nat) (a d : α), j ≠ i → (l.set i a).getD j d = l.getD j d := by
  induction l with
  | nil => intro i j a d _; rfl
  | cons x l ih =>
    intro i j a d hne
    cases i with
    | zero =>
      cases j with
      | zero => exact absurd rfl hne
      | succ j => rfl
    | succ i =>
      cases j with
      | zero => rfl
      | succ j => exact ih i j a d (fun h => hne (by rw [h]))

theorem set_getD_self {α : Type} (l : List α) :
    ∀ (j : Nat) (d : α), l.set j (l.getD j d) = l := by
  induction l with
  | nil => intro j d; rfl
  | cons x l ih =>
    intro j d
    cases j with
    | zero => rfl
    | succ j => exact congrArg (List.cons x) (ih j d)

theorem getD_map_eq {α β : Type} (f : α → β) (l : List α) :
    ∀ (i : Nat) (a : α), (l.map f).getD i (f a) = f (l.getD i a) := by
  induction l with
  | nil => intro i a; rfl
  | cons x l ih =>
    intro i a
    cases i with
    | zero => rfl
    | succ i => exact ih i a

theorem map_set_comm {α β : Type} (f : α → β) (l : List α) :
    ∀ (i : Nat) (a : α), (l.set i a).map f = (l.map f).set i (f a) := by
  induction l with
  | nil => intro i a; rfl
  | cons x l ih =>
    intro i a
    cases i with
    | zero => rfl
    | succ i => exact congrArg (List.cons (f x)) (ih i a)

theorem getD_out_of_range {α : Type} (l : List α) :
    ∀ (j : Nat) (d : α), l.length ≤ j → l.getD j d = d := by
  induction l with
  | nil => intro j d _; rfl
  | cons x l ih =>
    intro j d h
    cases j with
    | zero => exact absurd h (by simp)
    | succ j => exact ih j d (by simpa using h)

theorem getD_mem_of_lt {α : Type} (l : List α) (j : Nat) (d : α) (h : j < l.length) :
    l.getD j d ∈ l := by
  rw [List.getD_eq_getElem _ _ h]
  exact List.getElem_mem h

theorem flatMap_nil_of {α β : Type} (L : List α) (f : α → List β)
    (h : ∀ a ∈ L, f a = []) : L.flatMap f = [] := by
  induction L with
  | nil => rfl
  | cons a L ih =>
    rw [List.flatMap_cons, h a (by simp), List.nil_append]
    exact ih (fun x hx => h x (by simp [hx]))

theorem flatMap_single {α β : Type} (a : α) (f : α → List β) :
    ∀ L : List α, a ∈ L → L.Nodup → (∀ b ∈ L, b ≠ a → f b = []) →
      L.flatMap f = f a := by
  intro L
  induction L with
  | nil => intro ha; cases ha
  | cons x L ih =>
    intro ha hnd hz
    rcases List.mem_cons.mp ha with rfl | ha'
    · rw [List.flatMap_cons]
      have hnil : L.flatMap f = [] := by
        refine flatMap_nil_of L f (fun b hb => ?_)
        refine hz b (List.mem_cons_of_mem _ hb) (fun he => ?_)
        exact (List.nodup_cons.mp hnd).1 (by rw [← he]; exact hb)
      rw [hnil, List.append_nil]
    · rw [List.flatMap_cons]
      have hx : f x = [] := by
        refine hz x (List.mem_cons_self _ _) (fun he => ?_)
        exact (List.nodup_cons.mp hnd).1 (by rw [he]; exact ha')
      rw [hx, List.nil_append]
      exact ih ha' (List.nodup_cons.mp hnd).2
        (fun b hb hb2 => hz b (List.mem_cons_of_mem _ hb) hb2)

theorem filter_flatMap_comm {α β : Type} (L : List α) (f : α → List β) (p : β → Bool) :
    (L.flatMap f).filter p = L.flatMap (fun a => (f a).filter p) := by
  induction L with
  | nil => rfl
  | cons a L ih =>
    rw [List.flatMap_cons, List.flatMap_cons, List.filter_append, ih]

theorem flatMap_assoc_aux {α β γ : Type} (L : List α) (f : α → List β) (g : β → List γ) :
    (L.flatMap f).flatMap g = L.flatMap (fun a => (f a).flatMap g) := by
  induction L with
  | nil => rfl
  | cons a L ih =>
    rw [List.flatMap_cons, List.flatMap_cons, List.flatMap_append, ih]

theorem flatMap_pure_eq {α : Type} (l : List α) : l.flatMap (fun a => [a]) = l := by
  induction l with
  | nil => rfl
  | cons a l ih => rw [List.flatMap_cons, ih]; rfl

theorem childrenOf_host (registry : List Device) :
    childrenOf (chain registry) 0 =
      ((List.range (chain registry).length).filter (fun bi => bi != 0)).reverse := by
  rw [childrenOf]
  congr 1
  refine List.filter_congr (fun k hk => ?_)
  rcases Nat.eq_zero_or_pos k with rfl | hpos
  · rw [findBest_host]
    simp
  · rw [findBest_real registry k hpos (List.mem_range.mp hk)]
    simp
    omega

theorem busKey_inj :
    ∀ ls : List Bus, (ls.map busKey).Nodup →
      ∀ b1 ∈ ls, ∀ b2 ∈ ls, busKey b1 = busKey b2 → b1 = b2 := by
  intro ls
  induction ls with
  | nil => intro _ b1 h1; cases h1
  | cons x ls ih =>
    intro hnd b1 h1 b2 h2 hk
    rw [List.map_cons, List.nodup_cons] at hnd
    rcases List.mem_cons.mp h1 with rfl | h1' <;> rcases List.mem_cons.mp h2 with rfl | h2'
    · rfl
    · exact absurd (by rw [hk]; exact List.mem_map_of_mem busKey h2') hnd.1
    · exact absurd (by rw [← hk]; exact List.mem_map_of_mem busKey h1') hnd.1
    · exact ih hnd.2 b1 h1' b2 h2' hk

theorem filter_key_singleton (k : Nat × Nat) (b : Bus) :
    ∀ ls : List Bus, (ls.map busKey).Nodup → b ∈ ls → busKey b = k →
      ls.filter (fun b2 => decide (busKey b2 = k)) = [b] := by
  intro ls
  induction ls with
  | nil => intro _ hb; cases hb
  | cons x ls ih =>
    intro hnd hb hk
    rw [List.map_cons, List.nodup_cons] at hnd
    rcases List.mem_cons.mp hb with rfl | hb'
    · rw [List.filter_cons_of_pos (by simp [hk])]
      have hnil : ls.filter (fun b2 => decide (busKey b2 = k)) = [] := by
        rw [List.filter_eq_nil_iff]
        intro b2 hb2
        simp only [decide_eq_true_eq]
        intro he
        exact hnd.1 (by rw [hk, ← he]; exact List.mem_map_of_mem busKey hb2)
      rw [hnil]
    · have hxk : ¬(busKey x = k) := by
        intro he
        exact hnd.1 (by rw [he, ← hk]; exact List.mem_map_of_mem busKey hb')
      rw [List.filter_cons_of_neg (by simp [hxk])]
      exact ih hnd.2 hb' hk

theorem findBusIdx_none_iff (dom n : Nat) :
    ∀ ls : List Bus, (findBusIdx ls dom n = none ↔
      ∀ bus ∈ ls, ¬(bus.domain = dom ∧ bus.number = n)) := by
  intro ls
  induction ls with
  | nil => simp [findBusIdx]
  | cons x ls ih =>
    rw [findBusIdx]
    by_cases hx : x.domain = dom ∧ x.number = n
    · rw [if_pos hx]
      constructor
      · intro h; cases h
      · intro h; exact absurd hx (h x (List.mem_cons_self _ _))
    · rw [if_neg hx]
      constructor
      · intro h bus hbus
        rcases List.mem_cons.mp hbus with rfl | hb'
        · exact hx
        · refine ih.mp ?_ bus hb'
          cases hfb : findBusIdx ls dom n with
          | none => rfl
          | some j => rw [hfb] at h; cases h
      · intro h
        have hfb : findBusIdx ls dom n = none :=
          ih.mpr (fun bus hb => h bus (List.mem_cons_of_mem _ hb))
        rw [hfb]
        rfl

theorem findBusIdx_some_getD (dom n : Nat) :
    ∀ (ls : List Bus) (j : Nat), findBusIdx ls dom n = some j →
      j < ls.length ∧ (ls.getD j ⟨0, 0, []⟩).domain = dom ∧
        (ls.getD j ⟨0, 0, []⟩).number = n := by
  intro ls
  induction ls with
  | nil => intro j h; cases h
  | cons x ls ih =>
    intro j h
    rw [findBusIdx] at h
    by_cases hx : x.domain = dom ∧ x.number = n
    · rw [if_pos hx] at h
      cases h
      exact ⟨Nat.succ_pos _, hx.1, hx.2⟩
    · rw [if_neg hx] at h
      cases hfb : findBusIdx ls dom n with
      | none => rw [hfb] at h; cases h
      | some j2 =>
        rw [hfb] at h
        cases h
        obtain ⟨ha, hb, hc⟩ := ih j2 hfb
        exact ⟨Nat.succ_lt_succ ha, hb, hc⟩

theorem appendToBus_keys (ls : List Bus) (j : Nat) (d : Device) :
    (appendToBus ls j d).map busKey = ls.map busKey := by
  rw [appendToBus, map_set_comm]
  have hk : busKey { ls.getD j ⟨0, 0, []⟩ with
      devs := (ls.getD j ⟨0, 0, []⟩).devs ++ [d] } =
      (ls.map busKey).getD j (busKey ⟨0, 0, []⟩) := by
    rw [getD_map_eq]
    rfl
  rw [hk, set_getD_self]

theorem appendToBus_mem (d : Device) :
    ∀ (ls : List Bus) (j : Nat), j < ls.length → (ls.map busKey).Nodup →
      busKey (ls.getD j ⟨0, 0, []⟩) = devKey d →
      ∀ bus ∈ appendToBus ls j d,
        bus = { ls.getD j ⟨0, 0, []⟩ with
                devs := (ls.getD j ⟨0, 0, []⟩).devs ++ [d] } ∨
          (bus ∈ ls ∧ busKey bus ≠ devKey d) := by
  intro ls
  induction ls with
  | nil => intro j hj; simp at hj
  | cons x ls ih =>
    intro j hj hnd hkey bus hbus
    rw [List.map_cons, List.nodup_cons] at hnd
    cases j with
    | zero =>
      rw [appendToBus] at hbus
      rcases List.mem_cons.mp hbus with rfl | hb'
      · left; rfl
      · right
        refine ⟨List.mem_cons_of_mem _ hb', ?_⟩
        intro he
        have hkx : busKey x = devKey d := hkey
        exact hnd.1 (by rw [hkx, ← he]; exact List.mem_map_of_mem busKey hb')
    | succ j =>
      rw [appendToBus] at hbus
      rcases List.mem_cons.mp hbus with rfl | hb'
      · right
        refine ⟨List.mem_cons_self _ _, ?_⟩
        intro he
        have hj' : j < ls.length := by simpa using hj
        have hmem : ls.getD j ⟨0, 0, []⟩ ∈ ls := getD_mem_of_lt ls j _ hj'
        have hkey' : busKey (ls.getD j ⟨0, 0, []⟩) = devKey d := hkey
        exact hnd.1 (by rw [he, ← hkey']; exact List.mem_map_of_mem busKey hmem)
      · have hj' : j < ls.length := by simpa using hj
        have hkey' : busKey (ls.getD j ⟨0, 0, []⟩) = devKey d := hkey
        rcases ih j hj' hnd.2 hkey' bus hb' with hL | hR
        · left; exact hL
        · right; exact ⟨List.mem_cons_of_mem _ hR.1, hR.2⟩

theorem materialize_length (ch : List Bridge) : (materialize ch).length = ch.length := by
  rw [materialize, List.length_map]

theorem materialize_getD (ch : List Bridge) (bi : Nat) (h : bi < ch.length) :
    (materialize ch).getD bi [] =
      [⟨(ch.getD bi host_bridge).domain, (ch.getD bi host_bridge).secondary, []⟩] := by
  have hlen : bi < (materialize ch).length := by rw [materialize_length]; exact h
  rw [List.getD_eq_getElem _ _ hlen, List.getD_eq_getElem _ _ h]
  simp only [materialize, List.getElem_map]
  rfl

theorem chain_length_pos (registry : List Device) : 0 < (chain registry).length := by
  rw [chain]
  exact Nat.succ_pos _

theorem mem_childrenOf_zero (registry : List Device) (ci : Nat)
    (h : ci ∈ childrenOf (chain registry) 0) :
    0 < ci ∧ ci < (chain registry).length ∧
      findBest (chain registry) ci = some 0 := by
  rw [childrenOf, List.mem_reverse] at h
  have h2 := List.mem_filter.mp h
  have hlt : ci < (chain registry).length := List.mem_range.mp h2.1
  have hfb : findBest (chain registry) ci = some 0 := eq_of_beq h2.2
  refine ⟨?_, hlt, hfb⟩
  rcases Nat.eq_zero_or_pos ci with rfl | hp
  · rw [findBest_host] at hfb; cases hfb
  · exact hp

theorem childrenOf_zero_nodup (registry : List Device) :
    (childrenOf (chain registry) 0).Nodup := by
  rw [childrenOf]
  exact List.nodup_reverse.mpr ((List.nodup_range _).filter _)

theorem zero_not_mem_childrenOf (registry : List Device) :
    0 ∉ childrenOf (chain registry) 0 := by
  intro h
  have := (mem_childrenOf_zero registry 0 h).1
  omega

theorem preorderNodes_eq (registry : List Device) :
    preorderNodes (chain registry) = 0 :: childrenOf (chain registry) 0 := by
  obtain ⟨m, hm⟩ : ∃ m, (chain registry).length = m + 1 :=
    ⟨((registry.filter isBridgeDev).map mkBridge).length, rfl⟩
  rw [preorderNodes, hm, preorderAux]
  congr 1
  have hcong : ∀ ci ∈ childrenOf (chain registry) 0,
      preorderAux (chain registry) (m + 1) ci = [ci] := by
    intro ci hci
    have hpos := (mem_childrenOf_zero registry ci hci).1
    rw [preorderAux, childrenOf_real registry ci hpos]
    rfl
  rw [flatMap_congr_aux (childrenOf (chain registry) 0)
    (preorderAux (chain registry) (m + 1)) (fun ci => [ci]) hcong]
  exact flatMap_pure_eq _

theorem preorderNodes_nodup (registry : List Device) :
    (preorderNodes (chain registry)).Nodup := by
  rw [preorderNodes_eq]
  exact List.nodup_cons.mpr ⟨zero_not_mem_childrenOf registry, childrenOf_zero_nodup registry⟩

theorem insert_dev_flat (registry : List Device) (d : Device) (st : List (List Bus)) :
    insert_dev (chain registry) ((chain registry).length + 1) d 0 st =
      match findBusIdx (st.getD 0 []) d.domain d.bus with
      | some j => st.set 0 (appendToBus (st.getD 0 []) j d)
      | none =>
        match descendTo (chain registry) 0 d.domain d.bus with
        | some ci =>
          match findBusIdx (st.getD ci []) d.domain d.bus with
          | some j => st.set ci (appendToBus (st.getD ci []) j d)
          | none => st.set ci (⟨d.domain, d.bus, [d]⟩ :: st.getD ci [])
        | none => st.set 0 (⟨d.domain, d.bus, [d]⟩ :: st.getD 0 []) := by
  rw [insert_dev]
  cases hf0 : findBusIdx (st.getD 0 []) d.domain d.bus with
  | some j => rfl
  | none =>
    dsimp only
    cases hcf : descendTo (chain registry) 0 d.domain d.bus with
    | none => rfl
    | some ci =>
      dsimp only
      obtain ⟨m, hm⟩ : ∃ m, (chain registry).length = m + 1 :=
        ⟨((registry.filter isBridgeDev).map mkBridge).length, rfl⟩
      rw [hm, insert_dev]
      cases hfc : findBusIdx (st.getD ci []) d.domain d.bus with
      | some j => rfl
      | none =>
        dsimp only
        have hpos : 0 < ci :=
          (mem_childrenOf_zero registry ci (List.mem_of_find?_eq_some hcf)).1
        have hdesc : descendTo (chain registry) ci d.domain d.bus = none := by
          rw [descendTo, childrenOf_real registry ci hpos]
          rfl
        rw [hdesc]

theorem TreeInv_append (ch : List Bridge) (done : List Device) (d : Device)
    (st : List (List Bus)) (bi j : Nat) (hbi : bi < ch.length)
    (hinv : TreeInv ch done st)
    (hf : findBusIdx (st.getD bi []) d.domain d.bus = some j)
    (hhome : devHome ch d = bi) :
    TreeInv ch (done ++ [d]) (st.set bi (appendToBus (st.getD bi []) j d)) := by
  obtain ⟨h1, h2, h3, h4, h5, h6⟩ := hinv
  have hbist : bi < st.length := by rw [h1]; exact hbi
  obtain ⟨hjlt, hdom, hnum⟩ := findBusIdx_some_getD d.domain d.bus (st.getD bi []) j hf
  have hkey : busKey ((st.getD bi []).getD j ⟨0, 0, []⟩) = devKey d := by
    rw [busKey, devKey, hdom, hnum]
  have hkeysEq : ∀ bj, keysAt (st.set bi (appendToBus (st.getD bi []) j d)) bj =
      keysAt st bj := by
    intro bj
    by_cases hb : bj = bi
    · subst hb
      rw [keysAt, getD_set_self st bj _ [] hbist, appendToBus_keys]
      rfl
    · rw [keysAt, getD_set_other st bi bj _ [] hb]
      rfl
  refine ⟨?_, ?_, ?_, ?_, ?_, ?_⟩
  · rw [List.length_set]; exact h1
  · intro bj bus hbus
    by_cases hb : bj = bi
    · subst hb
      rw [getD_set_self st bj _ [] hbist] at hbus
      rcases appendToBus_mem d (st.getD bj []) j hjlt (h3 bj) hkey bus hbus with hB | ⟨hmem, hne⟩
      · rw [hB]
        have hold := h2 bj ((st.getD bj []).getD j ⟨0, 0, []⟩) (getD_mem_of_lt _ j _ hjlt)
        have hPeq : homedP ch bj { (st.getD bj []).getD j ⟨0, 0, []⟩ with
            devs := ((st.getD bj []).getD j ⟨0, 0, []⟩).devs ++ [d] } =
            homedP ch bj ((st.getD bj []).getD j ⟨0, 0, []⟩) := rfl
        have hpd : homedP ch bj ((st.getD bj []).getD j ⟨0, 0, []⟩) d = true := by
          rw [homedP, hhome, hdom, hnum]
          simp
        show ((st.getD bj []).getD j ⟨0, 0, []⟩).devs ++ [d] = _
        rw [hPeq, List.filter_append]
        have hfd : [d].filter (homedP ch bj ((st.getD bj []).getD j ⟨0, 0, []⟩)) = [d] := by
          rw [List.filter_cons_of_pos hpd]
          rfl
        rw [hfd, hold]
      · have hold := h2 bj bus hmem
        rw [List.filter_append]
        have hP : homedP ch bj bus d = false := by
          rw [homedP]
          by_cases hd1 : d.domain = bus.domain
          · by_cases hd2 : d.bus = bus.number
            · exact absurd (by rw [busKey, devKey, hd1, hd2]) hne
            · simp [hd2]
          · simp [hd1]
        have hfd : [d].filter (homedP ch bj bus) = [] := by simp [hP]
        rw [hfd, List.append_nil, hold]
    · rw [getD_set_other st bi bj _ [] hb] at hbus
      have hold := h2 bj bus hbus
      rw [List.filter_append]
      have hP : homedP ch bj bus d = false := by
        rw [homedP]
        have hdh : decide (devHome ch d = bj) = false := by
          rw [hhome]
          exact decide_eq_false (fun hh => hb hh.symm)
        rw [hdh]
        simp
      have hfd : [d].filter (homedP ch bj bus) = [] := by simp [hP]
      rw [hfd, List.append_nil, hold]
  · intro bj
    rw [hkeysEq bj]
    exact h3 bj
  · intro d2 hd2
    rcases List.mem_append.mp hd2 with hdone | hdd
    · rw [hkeysEq]
      exact h4 d2 hdone
    · have heq : d2 = d := by simpa using hdd
      subst heq
      rw [hkeysEq, hhome]
      have : busKey ((st.getD bi []).getD j ⟨0, 0, []⟩) ∈ keysAt st bi :=
        List.mem_map_of_mem busKey (getD_mem_of_lt _ j _ hjlt)
      rw [hkey] at this
      exact this
  · intro k hk
    rw [hkeysEq] at hk
    exact h5 k hk
  · rw [hkeysEq]
    exact h6

theorem TreeInv_create (ch : List Bridge) (done : List Device) (d : Device)
    (st : List (List Bus)) (bi : Nat) (hbi : bi < ch.length)
    (hinv : TreeInv ch done st)
    (hf : findBusIdx (st.getD bi []) d.domain d.bus = none)
    (hhome : devHome ch d = bi) :
    TreeInv ch (done ++ [d]) (st.set bi (⟨d.domain, d.bus, [d]⟩ :: st.getD bi [])) := by
  obtain ⟨h1, h2, h3, h4, h5, h6⟩ := hinv
  have hbist : bi < st.length := by rw [h1]; exact hbi
  have hnone := (findBusIdx_none_iff d.domain d.bus (st.getD bi [])).mp hf
  have hnotmem : devKey d ∉ keysAt st bi := by
    intro hk
    obtain ⟨bus, hbus, hkb⟩ := List.mem_map.mp hk
    refine hnone bus hbus ⟨?_, ?_⟩
    · exact congrArg Prod.fst hkb
    · exact congrArg Prod.snd hkb
  have hkeys : ∀ bj, keysAt (st.set bi (⟨d.domain, d.bus, [d]⟩ :: st.getD bi [])) bj =
      if bj = bi then devKey d :: keysAt st bi else keysAt st bj := by
    intro bj
    by_cases hb : bj = bi
    · subst hb
      rw [if_pos rfl, keysAt, getD_set_self st bj _ [] hbist, List.map_cons]
      rfl
    · rw [if_neg hb, keysAt, getD_set_other st bi bj _ [] hb]
      rfl
  refine ⟨?_, ?_, ?_, ?_, ?_, ?_⟩
  · rw [List.length_set]; exact h1
  · intro bj bus hbus
    by_cases hb : bj = bi
    · subst hb
      rw [getD_set_self st bj _ [] hbist] at hbus
      rcases List.mem_cons.mp hbus with rfl | hmem
      · show [d] = _
        rw [List.filter_append]
        have hpd : homedP ch bj ⟨d.domain, d.bus, [d]⟩ d = true := by
          rw [homedP, hhome]
          simp
        have hdone0 : done.filter (homedP ch bj ⟨d.domain, d.bus, [d]⟩) = [] := by
          rw [List.filter_eq_nil_iff]
          intro d2 hd2 hP
          rw [homedP] at hP
          simp only [Bool.and_eq_true, decide_eq_true_eq, beq_iff_eq] at hP
          obtain ⟨⟨hPa, hPb⟩, hPc⟩ := hP
          apply hnotmem
          have hk2 : devKey d2 = devKey d := by rw [devKey, devKey, hPb, hPc]
          rw [← hk2, ← hPa]
          exact h4 d2 hd2
        rw [hdone0]
        simp [hpd]
      · have hold := h2 bj bus hmem
        rw [List.filter_append]
        have hP : homedP ch bj bus d = false := by
          rw [homedP]
          have hbad := hnone bus hmem
          by_cases hd1 : d.domain = bus.domain
          · by_cases hd2 : d.bus = bus.number
            · exact absurd ⟨hd1.symm, hd2.symm⟩ hbad
            · simp [hd2]
          · simp [hd1]
        have hfd : [d].filter (homedP ch bj bus) = [] := by simp [hP]
        rw [hfd, List.append_nil, hold]
    · rw [getD_set_other st bi bj _ [] hb] at hbus
      have hold := h2 bj bus hbus
      rw [List.filter_append]
      have hP : homedP ch bj bus d = false := by
        rw [homedP]
        have hdh : decide (devHome ch d = bj) = false := by
          rw [hhome]
          exact decide_eq_false (fun hh => hb hh.symm)
        rw [hdh]
        simp
      have hfd : [d].filter (homedP ch bj bus) = [] := by simp [hP]
      rw [hfd, List.append_nil, hold]
  · intro bj
    rw [hkeys bj]
    by_cases hb : bj = bi
    · rw [if_pos hb]
      exact List.nodup_cons.mpr ⟨hnotmem, h3 bi⟩
    · rw [if_neg hb]
      exact h3 bj
  · intro d2 hd2
    rcases List.mem_append.mp hd2 with hdone | hdd
    · have hmem := h4 d2 hdone
      rw [hkeys]
      by_cases hb : devHome ch d2 = bi
      · rw [if_pos hb]
        rw [hb] at hmem
        exact List.mem_cons_of_mem _ hmem
      · rw [if_neg hb]
        exact hmem
    · have hempty : d2 = d := by simpa using hdd
      subst hempty
      rw [hhome, hkeys, if_pos rfl]
      exact List.mem_cons_self _ _
  · intro k hk
    rw [hkeys] at hk
    by_cases hb : (0 : Nat) = bi
    · rw [if_pos hb] at hk
      rcases List.mem_cons.mp hk with rfl | hk2
      · right
        show homeNode ch d.domain d.bus = 0
        have hh : devHome ch d = 0 := by rw [hhome, ← hb]
        exact hh
      · refine h5 k ?_
        rw [hb]
        exact hk2
    · rw [if_neg hb] at hk
      exact h5 k hk
  · rw [hkeys]
    by_cases hb : (0 : Nat) = bi
    · rw [if_pos hb]
      refine List.mem_cons_of_mem _ ?_
      rw [← hb]
      exact h6
    · rw [if_neg hb]
      exact h6

theorem TreeInv_step (registry : List Device) (done : List Device) (d : Device)
    (st : List (List Bus)) (hinv : TreeInv (chain registry) done st) :
    TreeInv (chain registry) (done ++ [d])
      (insert_dev (chain registry) ((chain registry).length + 1) d 0 st) := by
  rw [insert_dev_flat]
  cases hf0 : findBusIdx (st.getD 0 []) d.domain d.bus with
  | some j =>
    dsimp only
    have hhome : devHome (chain registry) d = 0 := by
      obtain ⟨hjlt, hdom, hnum⟩ := findBusIdx_some_getD d.domain d.bus (st.getD 0 []) j hf0
      have hmem : (st.getD 0 []).getD j ⟨0, 0, []⟩ ∈ st.getD 0 [] :=
        getD_mem_of_lt _ j _ hjlt
      have hkmem : busKey ((st.getD 0 []).getD j ⟨0, 0, []⟩) ∈ keysAt st 0 :=
        List.mem_map_of_mem busKey hmem
      rcases hinv.2.2.2.2.1 _ hkmem with hk00 | hkh
      · have hd0 : d.domain = 0 := by
          rw [← hdom]
          exact congrArg Prod.fst hk00
        have hb0 : d.bus = 0 := by
          rw [← hnum]
          exact congrArg Prod.snd hk00
        rw [devHome, homeNode, hd0, hb0]
        rfl
      · rw [devHome, ← hdom, ← hnum]
        exact hkh
    exact TreeInv_append (chain registry) done d st 0 j (chain_length_pos registry) hinv hf0 hhome
  | none =>
    dsimp only
    have hnone := (findBusIdx_none_iff d.domain d.bus (st.getD 0 [])).mp hf0
    have hne00 : ¬(d.domain = 0 ∧ d.bus = 0) := by
      rintro ⟨hd0, hb0⟩
      have h00 : ((0 : Nat), (0 : Nat)) ∈ (st.getD 0 []).map busKey := hinv.2.2.2.2.2
      obtain ⟨bus, hbus, hkb⟩ := List.mem_map.mp h00
      refine hnone bus hbus ⟨?_, ?_⟩
      · rw [hd0]
        exact congrArg Prod.fst hkb
      · rw [hb0]
        exact congrArg Prod.snd hkb
    have hcond : (d.domain == 0 && d.bus == 0) = false := by
      by_cases hq1 : d.domain = 0
      · by_cases hq2 : d.bus = 0
        · exact absurd ⟨hq1, hq2⟩ hne00
        · simp [hq2]
      · simp [hq1]
    cases hcf : descendTo (chain registry) 0 d.domain d.bus with
    | some ci =>
      dsimp only
      obtain ⟨hcpos, hclt, _⟩ :=
        mem_childrenOf_zero registry ci (List.mem_of_find?_eq_some hcf)
      have hhome : devHome (chain registry) d = ci := by
        rw [devHome, homeNode, hcond, hcf]
        rfl
      cases hfc : findBusIdx (st.getD ci []) d.domain d.bus with
      | some j =>
        dsimp only
        exact TreeInv_append (chain registry) done d st ci j hclt hinv hfc hhome
      | none =>
        dsimp only
        exact TreeInv_create (chain registry) done d st ci hclt hinv hfc hhome
    | none =>
      dsimp only
      have hhome : devHome (chain registry) d = 0 := by
        rw [devHome, homeNode, hcond, hcf]
        rfl
      exact TreeInv_create (chain registry) done d st 0 (chain_length_pos registry) hinv hf0 hhome

theorem TreeInv_fold (registry : List Device) :
    ∀ (rest done : List Device) (st : List (List Bus)),
      TreeInv (chain registry) done st →
      TreeInv (chain registry) (done ++ rest)
        (rest.foldl
          (fun st2 d => insert_dev (chain registry) ((chain registry).length + 1) d 0 st2)
          st) := by
  intro rest
  induction rest with
  | nil =>
    intro done st h
    rw [List.append_nil]
    exact h
  | cons d rest ih =>
    intro done st h
    rw [List.foldl_cons]
    have hstep := TreeInv_step registry done d st h
    have hrest := ih (done ++ [d]) _ hstep
    simpa using hrest

theorem TreeInv_base (registry : List Device) :
    TreeInv (chain registry) [] (materialize (chain registry)) := by
  refine ⟨materialize_length _, ?_, ?_, ?_, ?_, ?_⟩
  · intro bi bus hbus
    by_cases hb : bi < (chain registry).length
    · rw [materialize_getD _ bi hb] at hbus
      rw [List.mem_singleton.mp hbus]
      rfl
    · rw [getD_out_of_range _ bi [] (by rw [materialize_length]; omega)] at hbus
      cases hbus
  · intro bi
    by_cases hb : bi < (chain registry).length
    · rw [keysAt, materialize_getD _ bi hb]
      simp
    · rw [keysAt, getD_out_of_range _ bi [] (by rw [materialize_length]; omega)]
      simp
  · intro d hd
    cases hd
  · intro k hk
    rw [keysAt, materialize_getD _ 0 (chain_length_pos registry), chain_getD_zero] at hk
    simp only [List.map_cons, List.map_nil, List.mem_singleton] at hk
    left
    rw [hk]
    rfl
  · rw [keysAt, materialize_getD _ 0 (chain_length_pos registry), chain_getD_zero]
    simp only [List.map_cons, List.map_nil, List.mem_singleton]
    rfl

theorem TreeInv_grow (registry : List Device) :
    TreeInv (chain registry) registry (grow_tree registry).2 := by
  have h := TreeInv_fold registry registry [] (materialize (chain registry))
    (TreeInv_base registry)
  rw [List.nil_append] at h
  exact h

theorem homeNode_mem_nodes (registry : List Device) (dom n : Nat) :
    homeNode (chain registry) dom n ∈ 0 :: childrenOf (chain registry) 0 := by
  rw [homeNode]
  by_cases hc : (dom == 0 && n == 0) = true
  · rw [if_pos hc]
    exact List.mem_cons_self _ _
  · rw [if_neg hc]
    cases hcf : descendTo (chain registry) 0 dom n with
    | none =>
      exact List.mem_cons_self _ _
    | some ci =>
      exact List.mem_cons_of_mem _ (List.mem_of_find?_eq_some hcf)

theorem tree_filter_eq (registry : List Device) (st : List (List Bus))
    (hinv : TreeInv (chain registry) registry st) (dom n : Nat) :
    (preorderDevs (chain registry) st).filter (keyP dom n) =
      registry.filter (keyP dom n) := by
  obtain ⟨h1, h2, h3, h4, h5, h6⟩ := hinv
  have hnd : (0 :: childrenOf (chain registry) 0).Nodup := by
    have hpn := preorderNodes_nodup registry
    rw [preorderNodes_eq] at hpn
    exact hpn
  have hpiece_nil : ∀ bi, ∀ bus ∈ st.getD bi [],
      ¬(bi = homeNode (chain registry) dom n ∧ busKey bus = (dom, n)) →
      bus.devs.filter (keyP dom n) = [] := by
    intro bi bus hbus hnot
    rw [h2 bi bus hbus, List.filter_filter, List.filter_eq_nil_iff]
    intro d2 hd2 hP
    simp only [keyP, homedP, Bool.and_eq_true, decide_eq_true_eq, beq_iff_eq] at hP
    obtain ⟨⟨hq1, hq2⟩, ⟨hq3, hq4⟩, hq5⟩ := hP
    apply hnot
    refine ⟨?_, ?_⟩
    · rw [← hq3, devHome, hq1, hq2]
    · rw [busKey, ← hq4, ← hq5, hq1, hq2]
  suffices hfinal : (0 :: childrenOf (chain registry) 0).flatMap
      (fun bi => (st.getD bi []).flatMap (fun bus => bus.devs.filter (keyP dom n))) =
      registry.filter (keyP dom n) by
    calc (preorderDevs (chain registry) st).filter (keyP dom n)
        = (((0 :: childrenOf (chain registry) 0).flatMap
            (fun bi => st.getD bi [])).flatMap Bus.devs).filter (keyP dom n) := by
          rw [preorderDevs, preorderBuses, preorderNodes_eq]
      _ = ((0 :: childrenOf (chain registry) 0).flatMap
            (fun bi => (st.getD bi []).flatMap Bus.devs)).filter (keyP dom n) := by
          rw [flatMap_assoc_aux]
      _ = (0 :: childrenOf (chain registry) 0).flatMap
            (fun bi => ((st.getD bi []).flatMap Bus.devs).filter (keyP dom n)) :=
          filter_flatMap_comm _ _ _
      _ = (0 :: childrenOf (chain registry) 0).flatMap
            (fun bi => (st.getD bi []).flatMap (fun bus => bus.devs.filter (keyP dom n))) :=
          flatMap_congr_aux _ _ _ (fun bi _ => filter_flatMap_comm _ _ _)
      _ = registry.filter (keyP dom n) := hfinal
  by_cases hex : ∃ d0, d0 ∈ registry ∧ keyP dom n d0 = true
  · obtain ⟨d0, hd0, hk0⟩ := hex
    simp only [keyP, Bool.and_eq_true, beq_iff_eq] at hk0
    obtain ⟨hk0d, hk0n⟩ := hk0
    have hkm : (dom, n) ∈ (st.getD (homeNode (chain registry) dom n) []).map busKey := by
      have hdk : devKey d0 = (dom, n) := by rw [devKey, hk0d, hk0n]
      have hdh : devHome (chain registry) d0 = homeNode (chain registry) dom n := by
        rw [devHome, hk0d, hk0n]
      have h4' := h4 d0 hd0
      rw [hdk, hdh] at h4'
      exact h4'
    obtain ⟨theBus, htb, htbk⟩ := List.mem_map.mp hkm
    have hz1 : ∀ bj ∈ 0 :: childrenOf (chain registry) 0,
        bj ≠ homeNode (chain registry) dom n →
        (st.getD bj []).flatMap (fun bus => bus.devs.filter (keyP dom n)) = [] := by
      intro bj _ hbj
      refine flatMap_nil_of _ _ (fun bus hbus => ?_)
      exact hpiece_nil bj bus hbus (fun hcc => hbj hcc.1)
    have houter := flatMap_single (homeNode (chain registry) dom n)
      (fun bi => (st.getD bi []).flatMap (fun bus => bus.devs.filter (keyP dom n)))
      (0 :: childrenOf (chain registry) 0) (homeNode_mem_nodes registry dom n) hnd hz1
    have hz2 : ∀ bus ∈ st.getD (homeNode (chain registry) dom n) [],
        bus ≠ theBus → bus.devs.filter (keyP dom n) = [] := by
      intro bus hbus hne
      refine hpiece_nil _ bus hbus (fun hcc => hne ?_)
      exact busKey_inj (st.getD (homeNode (chain registry) dom n) []) (h3 _)
        bus hbus theBus htb (by rw [hcc.2, ← htbk])
    have hinner := flatMap_single theBus (fun bus => bus.devs.filter (keyP dom n))
      (st.getD (homeNode (chain registry) dom n) [])
      htb (List.Nodup.of_map busKey (h3 _)) hz2
    have hpos : theBus.devs.filter (keyP dom n) = registry.filter (keyP dom n) := by
      rw [h2 _ theBus htb, List.filter_filter]
      refine List.filter_congr (fun d2 hd2 => ?_)
      by_cases hkp : keyP dom n d2 = true
      · rw [hkp, Bool.true_and]
        have hkp2 := hkp
        simp only [keyP, Bool.and_eq_true, beq_iff_eq] at hkp2
        obtain ⟨hkd, hkn⟩ := hkp2
        rw [homedP]
        have hdh : devHome (chain registry) d2 = homeNode (chain registry) dom n := by
          rw [devHome, hkd, hkn]
        have htbdom : theBus.domain = dom := congrArg Prod.fst htbk
        have htbnum : theBus.number = n := congrArg Prod.snd htbk
        rw [hdh, htbdom, htbnum, hkd, hkn]
        simp
      · have hkpf : keyP dom n d2 = false := by
          revert hkp
          cases keyP dom n d2 <;> simp
        rw [hkpf, Bool.false_and]
    exact houter.trans (hinner.trans hpos)
  · have hrnil : registry.filter (keyP dom n) = [] := by
      rw [List.filter_eq_nil_iff]
      intro a ha hp
      exact hex ⟨a, ha, hp⟩
    rw [hrnil]
    refine flatMap_nil_of _ _ (fun bi _ => ?_)
    refine flatMap_nil_of _ _ (fun bus hbus => ?_)
    rw [h2 bi bus hbus, List.filter_filter, List.filter_eq_nil_iff]
    intro d2 hd2 hP
    exact hex ⟨d2, hd2, ((Bool.and_eq_true _ _).mp hP).1⟩

theorem tree_perm (registry : List Device) (st : List (List Bus))
    (hinv : TreeInv (chain registry) registry st) :
    List.Perm (preorderDevs (chain registry) st) registry := by
  rw [List.perm_iff_count]
  intro a
  have hpa : keyP a.domain a.bus a = true := by simp [keyP]
  calc List.count a (preorderDevs (chain registry) st)
      = List.count a ((preorderDevs (chain registry) st).filter (keyP a.domain a.bus)) :=
        (List.count_filter hpa).symm
    _ = List.count a (registry.filter (keyP a.domain a.bus)) := by
        rw [tree_filter_eq registry st hinv a.domain a.bus]
    _ = List.count a registry := List.count_filter hpa

theorem tree_unique_bus (registry : List Device) (st : List (List Bus))
    (hinv : TreeInv (chain registry) registry st) (d : Device) (hd : d ∈ registry) :
    ((preorderBuses (chain registry) st).filter
      (fun bus => decide (d ∈ bus.devs))).length = 1 := by
  obtain ⟨h1, h2, h3, h4, h5, h6⟩ := hinv
  have hmemchar : ∀ bi, ∀ bus ∈ st.getD bi [],
      (decide (d ∈ bus.devs) = true) ↔
        (devHome (chain registry) d = bi ∧ busKey bus = devKey d) := by
    intro bi bus hbus
    rw [decide_eq_true_eq, h2 bi bus hbus, List.mem_filter]
    constructor
    · rintro ⟨-, hP⟩
      simp only [homedP, Bool.and_eq_true, decide_eq_true_eq, beq_iff_eq] at hP
      obtain ⟨⟨hq1, hq2⟩, hq3⟩ := hP
      exact ⟨hq1, by rw [busKey, devKey, ← hq2, ← hq3]⟩
    · rintro ⟨hh, hk⟩
      refine ⟨hd, ?_⟩
      simp only [homedP, Bool.and_eq_true, decide_eq_true_eq, beq_iff_eq]
      have hk1 : bus.domain = d.domain := congrArg Prod.fst hk
      have hk2 : bus.number = d.bus := congrArg Prod.snd hk
      exact ⟨⟨hh, hk1.symm⟩, hk2.symm⟩
  have hkm : devKey d ∈ (st.getD (devHome (chain registry) d) []).map busKey := h4 d hd
  obtain ⟨theBus, htb, htbk⟩ := List.mem_map.mp hkm
  have hmnode : devHome (chain registry) d ∈ 0 :: childrenOf (chain registry) 0 :=
    homeNode_mem_nodes registry d.domain d.bus
  have hnd : (0 :: childrenOf (chain registry) 0).Nodup := by
    have hpn := preorderNodes_nodup registry
    rw [preorderNodes_eq] at hpn
    exact hpn
  have hcalc : (preorderBuses (chain registry) st).filter
      (fun bus => decide (d ∈ bus.devs)) = [theBus] := by
    rw [preorderBuses, preorderNodes_eq, filter_flatMap_comm]
    have hz1 : ∀ bj ∈ 0 :: childrenOf (chain registry) 0,
        bj ≠ devHome (chain registry) d →
        (st.getD bj []).filter (fun bus => decide (d ∈ bus.devs)) = [] := by
      intro bj _ hbj
      rw [List.filter_eq_nil_iff]
      intro bus hbus hP
      exact hbj ((hmemchar bj bus hbus).mp hP).1.symm
    have houter := flatMap_single (devHome (chain registry) d)
      (fun bi => (st.getD bi []).filter (fun bus => decide (d ∈ bus.devs)))
      (0 :: childrenOf (chain registry) 0) hmnode hnd hz1
    have hcongr : (st.getD (devHome (chain registry) d) []).filter
        (fun bus => decide (d ∈ bus.devs)) =
        (st.getD (devHome (chain registry) d) []).filter
          (fun bus => decide (busKey bus = devKey d)) := by
      refine List.filter_congr (fun bus hbus => ?_)
      have hch := hmemchar _ bus hbus
      by_cases hin : decide (d ∈ bus.devs) = true
      · rw [hin]
        exact (decide_eq_true ((hch.mp hin).2)).symm
      · have hinf : decide (d ∈ bus.devs) = false := by
          revert hin
          cases decide (d ∈ bus.devs) <;> simp
        rw [hinf]
        by_cases hbk : busKey bus = devKey d
        · exact absurd (hch.mpr ⟨rfl, hbk⟩) hin
        · exact (decide_eq_false hbk).symm
    exact houter.trans (hcongr.trans
      (filter_key_singleton (devKey d) theBus
        (st.getD (devHome (chain registry) d) []) (h3 _) htb htbk))
  rw [hcalc]
  rfl

/-- **C1**: for every registry sorted by (domain, bus, device, function),
after the passive tree build (`grow_tree`) the concatenation of all buses'
device lists in tree pre-order is a permutation of the registry, the
devices of each (domain, bus) key keep their registry-relative order (so
per-bus relative order is preserved), and every registry device lies in
exactly one bus of the built tree. -/
theorem c1_registry_partition (registry : List Device)
    (_hsorted : List.Pairwise (fun a b => devLe a b = true) registry) :
    List.Perm (preorderDevs (grow_tree registry).1 (grow_tree registry).2) registry ∧
    (∀ dom n, (preorderDevs (grow_tree registry).1 (grow_tree registry).2).filter
        (keyP dom n) = registry.filter (keyP dom n)) ∧
    ∀ d ∈ registry,
      ((preorderBuses (grow_tree registry).1 (grow_tree registry).2).filter
        (fun bus => decide (d ∈ bus.devs))).length = 1 := by
  have hfst : (grow_tree registry).1 = chain registry := rfl
  have hinv := TreeInv_grow registry
  rw [hfst]
  exact ⟨tree_perm registry _ hinv,
    fun dom n => tree_filter_eq registry _ hinv dom n,
    fun d hd => tree_unique_bus registry _ hinv d hd⟩

/-- Witness for C1: the concrete registry `registryC4` is sorted by
(domain, bus, device, function), and the claim's conclusion holds on it. -/
theorem c1_registry_partition_witness :
    List.Pairwise (fun a b => devLe a b = true) registryC4 ∧
    List.Perm (preorderDevs (grow_tree registryC4).1 (grow_tree registryC4).2)
      registryC4 :=
  ⟨by decide, (c1_registry_partition registryC4 (by decide)).1⟩

end Lspci
